import Mathlib

/-!
Verification of the Mantrify01API database backup-and-restore subsystem.

This file gives a shallow embedding of the subsystem's data model and
operations, translated from the TypeScript source:

  * `src/modules/database/validation.ts`  — filename validation/sanitization
  * `src/modules/database/filesystem.ts`  — timestamp generation
  * `src/modules/database/import.ts`      — CSV row parsing and table import
  * `src/modules/database/export.ts`      — the table registry (`getAllTables`)
  * `src/routes/database.ts`              — the backup/restore route handlers

Core `String` functions (`trim`, `startsWith`, `splitOn`, the `String.ltb`
based order) do not reduce in the kernel, so every string operation used by
the embedding is defined here over `String.data : List Char`, with the exact
semantics of the JavaScript primitive it stands for.

The zip archiver (`compression.ts`) and the export serializer
(`exportTableToCSV` / `createBackup`) exist in the source tree only as
Phase-2 placeholders, so those two components are modelled from the
specification (§4.3, §4.4); every definition that is modelled from the spec
rather than translated from source is marked `Modelled from the spec:` in
its doc comment.
-/

namespace Mantrify

/-! ## JavaScript string primitives over `List Char` -/

/-- `sub.isPrefixOf l`-style check, the core of `String.prototype.includes`. -/
def charsHasInfix (l sub : List Char) : Bool :=
  l.tails.any (fun t => sub.isPrefixOf t)

/-- JavaScript `s.includes(sub)`: `sub` occurs contiguously in `s`. -/
def jsIncludes (s sub : String) : Bool :=
  charsHasInfix s.data sub.data

/-- JavaScript `String.prototype.trim` on the character list: drop leading and
trailing whitespace. -/
def trimChars (l : List Char) : List Char :=
  ((l.dropWhile Char.isWhitespace).reverse.dropWhile Char.isWhitespace).reverse

/-- JavaScript `s.startsWith(p)`. -/
def jsStartsWith (s p : String) : Bool :=
  p.data.isPrefixOf s.data

/-- JavaScript `s.endsWith(p)`. -/
def jsEndsWith (s p : String) : Bool :=
  p.data.reverse.isPrefixOf s.data.reverse

/-- Node `path.isAbsolute` (posix): the path begins with a slash. -/
def pathIsAbsolute (s : String) : Bool :=
  jsStartsWith s "/"

/-- Node `path.join(a, b)` for a trusted directory `a` and a relative
component `b` (the only form the routes use). -/
def pathJoin (a b : String) : String :=
  a ++ "/" ++ b

/-! ## Error taxonomy (`errorHandler.ts`) -/

/-- The subset of `ErrorCodes` used by the backup/restore subsystem. -/
inductive ErrorCode where
  | validationError
  | internalError
  | backupFailed
  | backupNotFound
  | invalidFilename
  | restoreFailed
  | invalidBackupFile
deriving DecidableEq, Repr

/-- `AppError`: code, message and HTTP status, as constructed in the source. -/
structure AppError where
  code : ErrorCode
  message : String
  status : Nat
deriving DecidableEq, Repr

/-! ## `validation.ts` -/

/-- `validateFilename` from `validation.ts`: path-traversal characters first,
then null bytes, then the empty/whitespace-only check; a hit throws an
`INVALID_FILENAME` `AppError`. -/
def validateFilename (filename : String) : Except AppError Unit :=
  if jsIncludes filename ".." || jsIncludes filename "/" ||
      jsIncludes filename "\\" || pathIsAbsolute filename then
    .error ⟨.invalidFilename, "Invalid filename: path traversal detected", 400⟩
  else if jsIncludes filename "\x00" then
    .error ⟨.invalidFilename, "Invalid filename: null byte detected", 400⟩
  else if filename = "" || (trimChars filename.data).length = 0 then
    .error ⟨.invalidFilename, "Filename cannot be empty", 400⟩
  else
    .ok ()

/-- `validateZipExtension` from `validation.ts`. -/
def validateZipExtension (filename : String) : Except AppError Unit :=
  if jsEndsWith filename ".zip" then .ok ()
  else .error ⟨.invalidFilename, "Filename must have .zip extension", 400⟩

/-- Node `path.basename`: the part after the last slash. -/
def basenameChars (l : List Char) : List Char :=
  ((l.reverse.takeWhile (fun c => c ≠ '/')).reverse)

/-- `sanitizeFilename` from `validation.ts`: basename, then every character
outside `[a-zA-Z0-9._-]` replaced by an underscore. -/
def sanitizeFilename (filename : String) : String :=
  ⟨(basenameChars filename.data).map
    (fun c => if c.isAlphanum || c = '.' || c = '_' || c = '-' then c else '_')⟩

/-! ## `filesystem.ts`: timestamps -/

/-- The decimal digit character for `n < 10`. -/
def digitChar (n : Nat) : Char := Char.ofNat (48 + n)

/-- JavaScript `String(n).padStart(2, "0")` for `n < 100`: exactly the two
decimal digits of `n`. -/
def pad2 (n : Nat) : List Char := [digitChar (n / 10), digitChar (n % 10)]

/-- JavaScript `String(y)` for a four-digit year `1000 ≤ y ≤ 9999`: exactly
the four decimal digits of `y`. -/
def year4 (y : Nat) : List Char :=
  [digitChar (y / 1000), digitChar (y / 100 % 10), digitChar (y / 10 % 10), digitChar (y % 10)]

/-- The component view of a JavaScript `Date` that `generateTimestamp` reads
(`getFullYear`, `getMonth()+1`, `getDate`, `getHours`, `getMinutes`,
`getSeconds`). -/
structure DateTime where
  year : Nat
  month : Nat
  day : Nat
  hours : Nat
  minutes : Nat
  seconds : Nat
deriving DecidableEq, Repr

/-- Component ranges of a real calendar date in years 1000–9999. -/
def DateTime.valid (t : DateTime) : Prop :=
  1000 ≤ t.year ∧ t.year ≤ 9999 ∧
  1 ≤ t.month ∧ t.month ≤ 12 ∧
  1 ≤ t.day ∧ t.day ≤ 31 ∧
  t.hours ≤ 23 ∧ t.minutes ≤ 59 ∧ t.seconds ≤ 59

instance (t : DateTime) : Decidable t.valid := by
  unfold DateTime.valid; infer_instance

/-- Chronological order key of a date: components packed most-significant
first, exactly the order of a `Date` value for valid components. -/
def DateTime.key (t : DateTime) : Nat :=
  ((((t.year * 100 + t.month) * 100 + t.day) * 100 + t.hours) * 100 + t.minutes) * 100
    + t.seconds

/-- `generateTimestamp` from `filesystem.ts`:
`` `${year}${month}${day}_${hours}${minutes}${seconds}` `` with every
component except the year padded to two digits. -/
def generateTimestamp (t : DateTime) : String :=
  ⟨year4 t.year ++ pad2 t.month ++ pad2 t.day ++ ['_'] ++
    pad2 t.hours ++ pad2 t.minutes ++ pad2 t.seconds⟩

/-! ## `export.ts`: the table registry -/

/-- `getAllTables` from `export.ts`, projected to the entity names; the
`model` field is the accessor for the same name in the row store, which the
embedding keys by name. The order is the fixed foreign-key dependency order. -/
def getAllTables : List String :=
  ["Users", "Mantras", "ContractUsersMantras", "ContractUserMantraListen",
   "ElevenLabsFiles", "Queue", "SoundFiles", "ContractMantrasElevenLabsFiles",
   "ContractMantrasSoundFiles"]

/-! ## Rows and the row store -/

/-- A parsed row: the JavaScript object produced by `parseCSVRow`, a mapping
from column name to value-or-NULL, in column order. -/
abbrev Row := List (String × Option String)

/-- The relational store, keyed by entity (table) name. -/
abbrev Store := String → List Row

/-- Replace the full row set of one table. -/
def updateStore (s : Store) (t : String) (v : List Row) : Store :=
  fun u => if u = t then v else s u

/-! ## CSV parsing (the `csv-parser` dependency of `import.ts`)

`import.ts` pipes the file through the `csv-parser` package, which is not
part of this repository; it is modelled here as a standard RFC-4180 reader:
the first record is the header, every later record becomes an object pairing
header names with field values; quoted fields may contain separators and
doubled interior quotes. -/

/-- Scan the remainder of a quoted field: `""` is an escaped quote, a lone
`"` closes the field. Returns `none` on an unterminated quote. -/
def scanQuoted : List Char → List Char → Option (List Char × List Char)
  | [], _ => none
  | c :: rest, acc =>
    if c = '"' then
      match rest with
      | [] => some (acc, [])
      | c2 :: rest2 =>
        if c2 = '"' then scanQuoted rest2 (acc ++ ['"'])
        else some (acc, c2 :: rest2)
    else scanQuoted rest (acc ++ [c])

theorem scanQuoted_cons_nil (c : Char) (acc : List Char) :
    scanQuoted [c] acc =
      if c = '"' then some (acc, []) else scanQuoted [] (acc ++ [c]) := rfl

theorem scanQuoted_cons₂ (c c2 : Char) (rest2 acc : List Char) :
    scanQuoted (c :: c2 :: rest2) acc =
      if c = '"' then
        (if c2 = '"' then scanQuoted rest2 (acc ++ ['"'])
         else some (acc, c2 :: rest2))
      else scanQuoted (c2 :: rest2) (acc ++ [c]) := rfl

/-- Scan an unquoted field: everything up to the next `,`, newline or end of
input. -/
def scanUnquoted : List Char → List Char → List Char × List Char
  | [], acc => (acc, [])
  | c :: rest, acc =>
    if c = ',' || c = '\n' then (acc, c :: rest)
    else scanUnquoted rest (acc ++ [c])

/-- Parse one field: a leading quote opens a quoted field, anything else an
unquoted one. -/
def parseField (input : List Char) : List Char × List Char :=
  match input with
  | [] => ([], [])
  | c :: rest =>
    if c = '"' then
      match scanQuoted rest [] with
      | some fr => fr
      | none => (rest, [])
    else scanUnquoted (c :: rest) []

theorem parseField_cons (c : Char) (rest : List Char) :
    parseField (c :: rest) =
      if c = '"' then
        (match scanQuoted rest [] with
         | some fr => fr
         | none => (rest, []))
      else scanUnquoted (c :: rest) [] := rfl

theorem scanQuoted_length_aux :
    ∀ n (l : List Char), l.length ≤ n → ∀ acc f r, scanQuoted l acc = some (f, r) →
      r.length < l.length := by
  intro n
  induction n with
  | zero =>
    intro l hle acc f r h
    cases l with
    | nil => simp [scanQuoted] at h
    | cons c rest => simp at hle
  | succ n ih =>
    intro l hle acc f r h
    cases l with
    | nil => simp [scanQuoted] at h
    | cons c rest =>
      cases rest with
      | nil =>
        rw [scanQuoted_cons_nil] at h
        by_cases hc : c = '"'
        · rw [if_pos hc] at h
          injection h with h2
          injection h2 with h3 h4
          subst h4
          simp
        · rw [if_neg hc] at h
          simp [scanQuoted] at h
      | cons c2 rest2 =>
        rw [scanQuoted_cons₂] at h
        by_cases hc : c = '"'
        · rw [if_pos hc] at h
          by_cases hc2 : c2 = '"'
          · rw [if_pos hc2] at h
            have hr2 : rest2.length ≤ n := by
              simp only [List.length_cons] at hle
              omega
            have := ih rest2 hr2 (acc ++ ['"']) f r h
            simp only [List.length_cons]
            omega
          · rw [if_neg hc2] at h
            injection h with h2
            injection h2 with h3 h4
            subst h4
            simp
        · rw [if_neg hc] at h
          have hr : (c2 :: rest2).length ≤ n := by
            simp only [List.length_cons] at hle ⊢
            omega
          have := ih (c2 :: rest2) hr (acc ++ [c]) f r h
          simp only [List.length_cons] at this ⊢
          omega

theorem scanQuoted_length {l acc f r} (h : scanQuoted l acc = some (f, r)) :
    r.length < l.length :=
  scanQuoted_length_aux l.length l le_rfl acc f r h

theorem scanUnquoted_length (l acc : List Char) :
    (scanUnquoted l acc).2.length ≤ l.length := by
  induction l, acc using scanUnquoted.induct with
  | case1 acc => simp [scanUnquoted]
  | case2 c rest acc h =>
    simp [scanUnquoted, h]
  | case3 c rest acc h ih =>
    rw [scanUnquoted]
    simp only [h, if_false, Bool.false_eq_true]
    calc (scanUnquoted rest (acc ++ [c])).2.length ≤ rest.length := ih
      _ ≤ (c :: rest).length := by simp

theorem parseField_length (input : List Char) :
    (parseField input).2.length ≤ input.length := by
  cases input with
  | nil => simp [parseField]
  | cons c rest =>
    rw [parseField_cons]
    by_cases hc : c = '"'
    · rw [if_pos hc]
      cases hsq : scanQuoted rest [] with
      | none => simp
      | some fr =>
        obtain ⟨f, r⟩ := fr
        have := scanQuoted_length hsq
        simp only [List.length_cons]
        omega
    · rw [if_neg hc]
      exact scanUnquoted_length _ _

/-- Parse one record: fields separated by commas, terminated by a newline or
the end of input; returns the fields and the unconsumed remainder. -/
def parseRecord (input : List Char) : List (List Char) × List Char :=
  match h : (parseField input).2 with
  | ',' :: r => ((parseField input).1 :: (parseRecord r).1, (parseRecord r).2)
  | '\n' :: r => ([(parseField input).1], r)
  | _ => ([(parseField input).1], [])
termination_by input.length
decreasing_by
  have := parseField_length input
  rw [h] at this
  simp only [List.length_cons] at this
  omega

theorem parseRecord_length_aux :
    ∀ n (input : List Char), input.length ≤ n → input ≠ [] →
      (parseRecord input).2.length < input.length := by
  intro n
  induction n with
  | zero =>
    intro input hle hne
    cases input with
    | nil => exact absurd rfl hne
    | cons c rest => simp at hle
  | succ n ih =>
    intro input hle hne
    have hpos : 0 < input.length := List.length_pos.mpr hne
    rw [parseRecord.eq_def]
    split
    next r h2 =>
      simp only
      have hf := parseField_length input
      rw [h2] at hf
      simp only [List.length_cons] at hf
      by_cases hr : r = []
      · subst hr
        have hnil : (parseRecord []).2 = [] := by
          rw [parseRecord.eq_def]
          split
          next h3 => simp [parseField, scanUnquoted] at h3
          next h3 => simp [parseField, scanUnquoted] at h3
          next => rfl
        rw [hnil]
        simpa using hpos
      · have := ih r (by omega) hr
        omega
    next r h2 =>
      simp only
      have hf := parseField_length input
      rw [h2] at hf
      simp only [List.length_cons] at hf
      omega
    next =>
      simpa using hpos

theorem parseRecord_length (input : List Char) (hne : input ≠ []) :
    (parseRecord input).2.length < input.length :=
  parseRecord_length_aux input.length input le_rfl hne

/-- Parse a CSV document into its records. -/
def parseCSV (input : List Char) : List (List (List Char)) :=
  match input with
  | [] => []
  | c :: rest => (parseRecord (c :: rest)).1 :: parseCSV (parseRecord (c :: rest)).2
termination_by input.length
decreasing_by
  exact parseRecord_length _ (by simp)

/-- The object stream `csv-parser` delivers to `import.ts`: the first record
is the header; every later record is paired with it field by field. -/
def csvParseObjects (content : String) : List (List (String × String)) :=
  match parseCSV content.data with
  | [] => []
  | header :: data =>
    data.map (fun r => (header.zip r).map (fun p => (⟨p.1⟩, ⟨p.2⟩)))

/-! ## `import.ts` -/

/-- `parseCSVRow` from `import.ts`: every empty-string field becomes `null`,
all other values pass through. -/
def parseCSVRow (row : List (String × String)) : Row :=
  row.map (fun kv => (kv.1, if kv.2 = "" then none else some kv.2))

/-- The row list `importCSVToTable` accumulates from a file's contents:
`csv-parser` records mapped through `parseCSVRow`. -/
def importRows (content : String) : List Row :=
  (csvParseObjects content).map parseCSVRow

/-! ## CSV rendering (the Exporter)

`exportTableToCSV` in `export.ts` is a Phase-2 placeholder, so the export
serialization is modelled from the spec (§4.3): one header line with the
column names, then one line per row; NULL is the empty field; a field
containing the delimiter, the quote character or a newline is quoted with
interior quotes doubled. -/

/-- Standard delimited-text quoting is forced by an embedded delimiter,
quote character or newline (spec §4.3). -/
def needsQuoting (s : String) : Bool :=
  s.data.any (fun c => c = ',' || c = '"' || c = '\n')

/-- Double every quote character (the interior-quote escape). -/
def doubledQuotes (l : List Char) : List Char :=
  l.flatMap (fun c => if c = '"' then ['"', '"'] else [c])

/-- Modelled from the spec: escape one CSV field (quote and double interior
quotes when quoting is forced). -/
def escapeField (s : String) : List Char :=
  if needsQuoting s then '"' :: (doubledQuotes s.data ++ ['"'])
  else s.data

/-- Modelled from the spec: a NULL column value is encoded as the empty
field; any other value is escaped. -/
def renderValue : Option String → List Char
  | none => []
  | some s => escapeField s

/-- Modelled from the spec: one CSV record, fields joined by commas. -/
def renderRecordChars (fs : List (Option String)) : List Char :=
  List.intercalate [','] (fs.map renderValue)

/-- Modelled from the spec: `exportTableToCSV` — header record (column names
never need quoting for the registry schema, so rendering them as plain
values is exact), then one record per row, records joined by newlines. -/
def exportTableToCSV (cols : List String) (rows : List Row) : String :=
  ⟨List.intercalate ['\n']
    (((cols.map some) :: rows.map (fun r => r.map Prod.snd)).map renderRecordChars)⟩

/-- The NULL/empty-string collapse of the round trip: an originally empty
string restores as NULL, everything else survives. -/
def collapseValue : Option String → Option String
  | none => none
  | some s => if s = "" then none else some s

/-- Row-wise NULL/empty-string collapse. -/
def collapseRow (r : Row) : Row :=
  r.map (fun kv => (kv.1, collapseValue kv.2))

/-! ## The restore orchestrator (`POST /database/replenish-database`)

The handler body after a successful upload and extraction is embedded as a
function of the extracted directory tree, a file-content oracle, and
success oracles for the two database mutations (`model.destroy`,
`model.bulkCreate`).  The sequelize transaction has its standard semantics:
mutations act on a pending copy of the store, `commit` publishes it,
`rollback` discards it.  Each run also produces the ordered trace of its
transaction, mutation and cleanup steps. -/

/-- One extracted directory level: top-level file names and the immediate
subdirectories with their file names (the orchestrator never reads deeper). -/
structure Dir where
  files : List String
  subdirs : List (String × List String)

/-- The events a restore run can emit, in program order. -/
inductive REvent where
  | txBegin
  | clear (table : String)
  | insert (table : String)
  | commit
  | rollback
  | cleanupDir
  | cleanupUpload
deriving DecidableEq, Repr

/-- The ambient state of one restore run: the extracted tree, the file
reader, the database mutation oracles, and `NODE_ENV === "development"`. -/
structure RestoreEnv where
  dir : Dir
  read : String → Option String
  clearOk : String → Bool
  insertOk : String → List Row → Bool
  isDevelopment : Bool

/-- A directory listing contains at least one `.csv` file
(`csvInRoot.length > 0` in the source). -/
def hasCsv (names : List String) : Bool :=
  !(names.filter (fun n => jsEndsWith n ".csv")).isEmpty

/-- `findCsvRoot` from the restore handler: the top level if it holds any
`.csv` file, otherwise the first immediate subdirectory that does. -/
def findCsvRoot (rootPath : String) (d : Dir) : Option String :=
  if hasCsv d.files then some rootPath
  else
    match d.subdirs.find? (fun sd => hasCsv sd.2) with
    | some sd => some (pathJoin rootPath sd.1)
    | none => none

/-- `fs.readdir` at a path of the extracted tree. -/
def dirListing (rootPath : String) (d : Dir) (path : String) : List String :=
  if path = rootPath then d.files
  else
    match d.subdirs.find? (fun sd => pathJoin rootPath sd.1 = path) with
    | some sd => sd.2
    | none => []

/-- A thrown JavaScript value: an `AppError` passes the route's catch through
unchanged, anything else is wrapped. -/
inductive Thrown where
  | app (e : AppError)
  | raw (msg : String)
deriving DecidableEq, Repr

/-- The restore route's catch: `AppError` is re-raised as-is, every other
error becomes `RESTORE_FAILED`. -/
def wrapRestoreError : Thrown → AppError
  | .app e => e
  | .raw _ => ⟨.restoreFailed, "Failed to restore database", 500⟩

/-- `importCSVToTable` from `import.ts`, acting on the pending transaction
state: parse the file, resolve 0 on zero data rows without touching the
store, otherwise one `bulkCreate` of the full row set (its event), failing
with `RESTORE_FAILED` naming the entity when the store rejects the rows. -/
def importCSVToTable (insertOk : String → List Row → Bool) (tableName : String)
    (content : String) (store : Store) : Except AppError (Store × Nat × List REvent) :=
  let rows := importRows content
  if rows.length = 0 then .ok (store, 0, [])
  else if insertOk tableName rows then
    .ok (updateStore store tableName (store tableName ++ rows), rows.length,
         [.insert tableName])
  else .error ⟨.restoreFailed, "Failed to import data to " ++ tableName, 500⟩

/-- The Clearing pass: the source iterates the registry by descending index
(`for (let i = tables.length - 1; i >= 0; i--)`), embedded as a walk of the
reversed registry; each `model.destroy` empties one table or throws. -/
def clearLoop (clearOk : String → Bool) :
    List String → Store → (Except Thrown Store) × List REvent
  | [], store => (.ok store, [])
  | t :: rest, store =>
    if clearOk t then
      let r := clearLoop clearOk rest (updateStore store t [])
      (r.1, .clear t :: r.2)
    else
      (.error (.raw ("destroy failed for " ++ t)), [])

/-- The Loading pass: registry order; a missing file records a zero count
and continues (`continue` in the source); a present file goes through
`importCSVToTable`, accumulating the per-table counts in loop order and the
running `totalRows`. -/
def loadLoop (env : RestoreEnv) (csvRoot : String) :
    List String → Store → (Except Thrown (Store × List (String × Nat) × Nat)) × List REvent
  | [], store => (.ok (store, ([], 0)), [])
  | t :: rest, store =>
    match env.read (pathJoin csvRoot (t ++ ".csv")) with
    | none =>
      match loadLoop env csvRoot rest store with
      | (.ok (st, rows, total), evs) => (.ok (st, ((t, 0) :: rows, total)), evs)
      | (.error e, evs) => (.error e, evs)
    | some content =>
      match importCSVToTable env.insertOk t content store with
      | .error e => (.error (.app e), [])
      | .ok (store2, cnt, evs) =>
        match loadLoop env csvRoot rest store2 with
        | (.ok (st, rows, total), evs2) =>
          (.ok (st, ((t, cnt) :: rows, total + cnt)), evs ++ evs2)
        | (.error e, evs2) => (.error e, evs ++ evs2)

/-- The restore route's success payload. -/
structure RestoreResponse where
  tablesImported : Nat
  rowsImported : List (String × Nat)
  totalRows : Nat
deriving DecidableEq, Repr

/-- Result of the try block: its outcome, whether the transaction handle was
still non-null when an error escaped, and the emitted events. -/
structure BodyResult where
  result : Except Thrown (RestoreResponse × Store)
  txnOpen : Bool
  events : List REvent

/-- The try block of the restore handler after extraction: Locating (twice
checked, `InvalidBackupFile` when no data files exist), then the transaction
with the Clearing and Loading passes and the final commit.  `rowsImported`
is an insertion-ordered key/count map (the registry names are distinct, so
the association list is exactly the source's object). -/
def replenishBody (tables : List String) (env : RestoreEnv)
    (extractionDir : String) (store : Store) : BodyResult :=
  match findCsvRoot extractionDir env.dir with
  | none => ⟨.error (.app ⟨.invalidBackupFile, "No CSV files found in backup", 400⟩),
             false, []⟩
  | some csvRoot =>
    if ((dirListing extractionDir env.dir csvRoot).filter
        (fun n => jsEndsWith n ".csv")).isEmpty then
      ⟨.error (.app ⟨.invalidBackupFile, "No CSV files found in backup", 400⟩),
       false, []⟩
    else
      match clearLoop env.clearOk tables.reverse store with
      | (.error e, cevs) => ⟨.error e, true, .txBegin :: cevs⟩
      | (.ok cleared, cevs) =>
        match loadLoop env csvRoot tables cleared with
        | (.error e, levs) => ⟨.error e, true, .txBegin :: (cevs ++ levs)⟩
        | (.ok (finalStore, rows, total), levs) =>
          ⟨.ok (⟨rows.length, rows, total⟩, finalStore), false,
           .txBegin :: (cevs ++ levs) ++ [.commit]⟩

/-- The finally block: temporary-directory and uploaded-file removal, skipped
in development mode. -/
def cleanupEvents (env : RestoreEnv) : List REvent :=
  if env.isDevelopment then [] else [.cleanupDir, .cleanupUpload]

/-- The whole restore handler: run the try block; on success publish the
pending store (commit) and respond; on error roll back iff the transaction
was open, keep the pre-restore store, and wrap the thrown value; the finally
cleanup runs on every path after catch. -/
def replenishDatabase (tables : List String) (env : RestoreEnv)
    (extractionDir : String) (store : Store) :
    Except AppError RestoreResponse × Store × List REvent :=
  match replenishBody tables env extractionDir store with
  | ⟨.ok (resp, store2), _, events⟩ => (.ok resp, store2, events ++ cleanupEvents env)
  | ⟨.error thrown, txnOpen, events⟩ =>
    (.error (wrapRestoreError thrown), store,
     events ++ (if txnOpen then [.rollback] else []) ++ cleanupEvents env)

/-! ## `POST /database/create-backup` -/

/-- The create-backup route's success payload. -/
structure CreateBackupResponse where
  filename : String
  tablesExported : Nat
  timestamp : String
deriving DecidableEq, Repr

/-- The create-backup route over a registry `tables` and a timestamp.
`createBackup` and `zipDirectory` are Phase-2 placeholders in the source, so
their success is abstracted by the `exportOk`/`zipOk` oracles (Modelled from
the spec: `exportAll` exports every registry entity and reports the count);
a raw failure of either is wrapped by the route's catch as `BACKUP_FAILED`.
The empty-registry check is the route's own code. -/
def createBackupRoute (tables : List String) (ts : String)
    (exportOk zipOk : Bool) : Except AppError CreateBackupResponse :=
  if tables.length = 0 then
    .error ⟨.backupFailed, "No tables found to export", 500⟩
  else if exportOk = false then
    .error ⟨.backupFailed, "Failed to create database backup", 500⟩
  else if zipOk = false then
    .error ⟨.backupFailed, "Failed to create database backup", 500⟩
  else
    .ok ⟨"database_backup_" ++ ts ++ ".zip", tables.length, ts⟩

/-! ## `GET /database/download-backup/:filename` and
`DELETE /database/delete-backup/:filename` -/

/-- Filesystem calls a route can make with a user-derived path. -/
inductive FsEvent where
  | existsCheck (path : String)
  | statCheck (path : String)
  | readStream (path : String)
  | unlink (path : String)
deriving DecidableEq, Repr

/-- The download route: zip-extension then filename validation, then and only
then the filesystem probes and the streamed response (the streamed sanitized
name on success). -/
def downloadBackup (filename : String) (backupPath : String)
    (fsExists fsIsFile : String → Bool) : Except AppError String × List FsEvent :=
  match validateZipExtension filename with
  | .error e => (.error e, [])
  | .ok _ =>
    match validateFilename filename with
    | .error e => (.error e, [])
    | .ok _ =>
      let sanitized := sanitizeFilename filename
      let filePath := pathJoin backupPath sanitized
      if fsExists filePath = false then
        (.error ⟨.backupNotFound, "Backup file not found", 404⟩,
         [.existsCheck filePath])
      else if fsIsFile filePath = false then
        (.error ⟨.backupNotFound, "Backup file not found", 404⟩,
         [.existsCheck filePath, .statCheck filePath])
      else
        (.ok sanitized,
         [.existsCheck filePath, .statCheck filePath, .readStream filePath])

/-- The delete route: same validation discipline, then the probes and the
unlink (which can itself fail as `BACKUP_FAILED`). -/
def deleteBackup (filename : String) (backupPath : String)
    (fsExists fsIsFile fsUnlinkOk : String → Bool) :
    Except AppError String × List FsEvent :=
  match validateZipExtension filename with
  | .error e => (.error e, [])
  | .ok _ =>
    match validateFilename filename with
    | .error e => (.error e, [])
    | .ok _ =>
      let sanitized := sanitizeFilename filename
      let filePath := pathJoin backupPath sanitized
      if fsExists filePath = false then
        (.error ⟨.backupNotFound, "Backup file not found", 404⟩,
         [.existsCheck filePath])
      else if fsIsFile filePath = false then
        (.error ⟨.backupNotFound, "Backup file not found", 404⟩,
         [.existsCheck filePath, .statCheck filePath])
      else if fsUnlinkOk filePath = false then
        (.error ⟨.backupFailed, "Failed to delete backup", 500⟩,
         [.existsCheck filePath, .statCheck filePath, .unlink filePath])
      else
        (.ok sanitized,
         [.existsCheck filePath, .statCheck filePath, .unlink filePath])

/-! ## The Archiver (`compression.ts`)

`extractZip` is a Phase-2 placeholder in the source; the unarchive pass is
modelled from the spec (§4.4): expand every entry under `destDir`, rejecting
any entry whose stored path contains parent-directory segments or is
absolute. -/

/-- One archive entry: its stored path and its bytes. -/
structure ZipEntry where
  name : String
  data : String
deriving DecidableEq, Repr

/-- Split a character list into slash-separated segments. -/
def splitSlash : List Char → List (List Char)
  | [] => [[]]
  | c :: rest =>
    if c = '/' then [] :: splitSlash rest
    else
      match splitSlash rest with
      | [] => [[c]]
      | s :: ss => (c :: s) :: ss

/-- The slash-separated segments of a path. -/
def pathSegments (s : String) : List String :=
  (splitSlash s.data).map (fun l => ⟨l⟩)

/-- Modelled from the spec: an entry is written only if its stored path has
no parent-directory segment and is not absolute. -/
def entryIsSafe (name : String) : Bool :=
  !((pathSegments name).contains "..") && !(jsStartsWith name "/")

/-- Modelled from the spec: `extractZip` writes each accepted entry at its
stored path joined onto `destDir`; the returned list is every filesystem
path written. -/
def extractZip (entries : List ZipEntry) (destDir : String) : List String :=
  (entries.filter (fun e => entryIsSafe e.name)).map (fun e => pathJoin destDir e.name)

/-- Resolve a segment path against an accumulated absolute location: `..`
pops one level (escaping above the root is `none`), `.` and empty segments
are no-ops, anything else descends. -/
def resolveSegments (acc : List String) : List String → Option (List String)
  | [] => some acc
  | s :: rest =>
    if s = ".." then
      match acc with
      | [] => none
      | _ :: _ => resolveSegments acc.dropLast rest
    else if s = "." || s = "" then resolveSegments acc rest
    else resolveSegments (acc ++ [s]) rest

/-! ## Theorems -/

theorem validateZipExtension_error_shape {f : String} {e : AppError}
    (h : validateZipExtension f = .error e) :
    e = ⟨.invalidFilename, "Filename must have .zip extension", 400⟩ := by
  unfold validateZipExtension at h
  split_ifs at h
  injection h with h2
  exact h2.symm

/-- Claim C5: a filename that is empty or whitespace-only, or contains `..`,
`/`, `\`, or a null byte, or is absolute, is rejected by `validateFilename`
with an `INVALID_FILENAME` error, and the download and delete routes reject
such a filename without making a single filesystem call. -/
theorem validateFilename_rejects_before_fs
    (filename backupPath : String) (fsExists fsIsFile fsUnlinkOk : String → Bool)
    (hbad : (trimChars filename.data).length = 0 ∨
      jsIncludes filename ".." = true ∨ jsIncludes filename "/" = true ∨
      jsIncludes filename "\\" = true ∨ jsIncludes filename "\x00" = true ∨
      pathIsAbsolute filename = true) :
    (∃ msg, validateFilename filename = .error ⟨.invalidFilename, msg, 400⟩) ∧
    (downloadBackup filename backupPath fsExists fsIsFile).2 = [] ∧
    (∃ e, (downloadBackup filename backupPath fsExists fsIsFile).1 = .error e ∧
      e.code = .invalidFilename) ∧
    (deleteBackup filename backupPath fsExists fsIsFile fsUnlinkOk).2 = [] ∧
    (∃ e, (deleteBackup filename backupPath fsExists fsIsFile fsUnlinkOk).1 = .error e ∧
      e.code = .invalidFilename) := by
  have hval : ∃ msg, validateFilename filename = .error ⟨.invalidFilename, msg, 400⟩ := by
    unfold validateFilename
    split_ifs with h1 h2 h3
    · exact ⟨_, rfl⟩
    · exact ⟨_, rfl⟩
    · exact ⟨_, rfl⟩
    · exfalso
      rcases hbad with hb | hb | hb | hb | hb | hb
      · exact h3 (by simp [hb])
      · exact h1 (by simp [hb])
      · exact h1 (by simp [hb])
      · exact h1 (by simp [hb])
      · exact h2 hb
      · exact h1 (by simp [hb])
  refine ⟨hval, ?_⟩
  obtain ⟨msg, hv⟩ := hval
  cases hz : validateZipExtension filename with
  | error e =>
    have he := validateZipExtension_error_shape hz
    unfold downloadBackup deleteBackup
    rw [hz]
    subst he
    exact ⟨rfl, ⟨_, rfl, rfl⟩, rfl, ⟨_, rfl, rfl⟩⟩
  | ok u =>
    unfold downloadBackup deleteBackup
    rw [hz, hv]
    exact ⟨rfl, ⟨_, rfl, rfl⟩, rfl, ⟨_, rfl, rfl⟩⟩

/-- Witness for C5 at the concrete traversal filename `"../x.zip"`. -/
theorem validateFilename_rejects_before_fs_witness :
    ((trimChars ("../x.zip" : String).data).length = 0 ∨
      jsIncludes "../x.zip" ".." = true ∨ jsIncludes "../x.zip" "/" = true ∨
      jsIncludes "../x.zip" "\\" = true ∨ jsIncludes "../x.zip" "\x00" = true ∨
      pathIsAbsolute "../x.zip" = true) ∧
    ((∃ msg, validateFilename "../x.zip" = .error ⟨.invalidFilename, msg, 400⟩) ∧
     (downloadBackup "../x.zip" "/res/database_backups" (fun _ => true) (fun _ => true)).2 = [] ∧
     (∃ e, (downloadBackup "../x.zip" "/res/database_backups" (fun _ => true) (fun _ => true)).1 =
        .error e ∧ e.code = .invalidFilename) ∧
     (deleteBackup "../x.zip" "/res/database_backups" (fun _ => true) (fun _ => true)
        (fun _ => true)).2 = [] ∧
     (∃ e, (deleteBackup "../x.zip" "/res/database_backups" (fun _ => true) (fun _ => true)
        (fun _ => true)).1 = .error e ∧ e.code = .invalidFilename)) :=
  ⟨Or.inr (Or.inl (by decide)),
   validateFilename_rejects_before_fs "../x.zip" "/res/database_backups"
     (fun _ => true) (fun _ => true) (fun _ => true) (Or.inr (Or.inl (by decide)))⟩

/-- Claim C8: an empty registry makes backup creation fail with the
`BACKUP_FAILED` "No tables found to export" error rather than succeed, and
with a non-empty registry — in particular the actual nine-entry registry —
that error branch is never taken. -/
theorem createBackup_empty_registry_fails (ts : String) (exportOk zipOk : Bool) :
    createBackupRoute [] ts exportOk zipOk =
      .error ⟨.backupFailed, "No tables found to export", 500⟩ ∧
    (∀ tables : List String, tables ≠ [] →
      createBackupRoute tables ts exportOk zipOk ≠
        .error ⟨.backupFailed, "No tables found to export", 500⟩) ∧
    getAllTables.length = 9 := by
  refine ⟨rfl, ?_, rfl⟩
  intro tables hne
  unfold createBackupRoute
  have : tables.length ≠ 0 := by simpa using hne
  split_ifs with h1 h2 h3
  · exact absurd h1 this
  · intro hc
    have := (Except.error.injEq _ _).mp hc
    simp [AppError.mk.injEq] at this
  · intro hc
    have := (Except.error.injEq _ _).mp hc
    simp [AppError.mk.injEq] at this
  · intro hc
    cases hc

/-- Whether the Loading pass performs a `bulkCreate` for table `t`: its file
exists at the located root and parses to at least one data row. -/
def insertHappens (env : RestoreEnv) (csvRoot t : String) : Bool :=
  match env.read (pathJoin csvRoot (t ++ ".csv")) with
  | none => false
  | some content => !(importRows content).isEmpty

theorem clearLoop_mem_events (ok : String → Bool) :
    ∀ (ts : List String) (store : Store) (e : REvent),
      e ∈ (clearLoop ok ts store).2 → ∃ t, e = .clear t := by
  intro ts
  induction ts with
  | nil => intro store e he; simp [clearLoop] at he
  | cons t rest ih =>
    intro store e he
    rw [clearLoop] at he
    split_ifs at he with h
    · simp only [List.mem_cons] at he
      rcases he with he | he
      · exact ⟨t, he⟩
      · exact ih _ e he
    · simp at he

theorem clearLoop_ok_events (ok : String → Bool) :
    ∀ (ts : List String) (store st : Store),
      (clearLoop ok ts store).1 = .ok st →
      (clearLoop ok ts store).2 = ts.map REvent.clear := by
  intro ts
  induction ts with
  | nil => intro store st _; simp [clearLoop]
  | cons t rest ih =>
    intro store st h
    rw [clearLoop] at h ⊢
    split_ifs at h ⊢ with hc
    simp only [List.map_cons, List.cons.injEq, true_and]
    exact ih _ st h

theorem importCSVToTable_events {insertOk : String → List Row → Bool}
    {t content : String} {store store2 : Store} {cnt : Nat} {evs : List REvent}
    (h : importCSVToTable insertOk t content store = .ok (store2, cnt, evs)) :
    evs = [] ∨ evs = [REvent.insert t] := by
  simp only [importCSVToTable] at h
  split_ifs at h with h1 h2
  · injection h with h3
    exact Or.inl (congrArg (fun p => p.2.2) h3).symm
  · injection h with h3
    exact Or.inr (congrArg (fun p => p.2.2) h3).symm

theorem loadLoop_mem_events (env : RestoreEnv) (csvRoot : String) :
    ∀ (ts : List String) (store : Store) (e : REvent),
      e ∈ (loadLoop env csvRoot ts store).2 → ∃ t, e = .insert t := by
  intro ts
  induction ts with
  | nil => intro store e he; simp [loadLoop] at he
  | cons t rest ih =>
    intro store e he
    rw [loadLoop] at he
    split at he
    next hread =>
      split at he
      next st rows total evs heq =>
        refine ih store e ?_
        rw [heq]
        exact he
      next err evs heq =>
        refine ih store e ?_
        rw [heq]
        exact he
    next content hread =>
      split at he
      next => simp at he
      next store2 cnt evs himp =>
        split at he
        next st rows total evs2 heq =>
          simp only [List.mem_append] at he
          rcases he with he | he
          · rcases importCSVToTable_events himp with rfl | rfl
            · simp at he
            · simp only [List.mem_singleton] at he
              exact ⟨t, he⟩
          · refine ih store2 e ?_
            rw [heq]
            exact he
        next err evs2 heq =>
          simp only [List.mem_append] at he
          rcases he with he | he
          · rcases importCSVToTable_events himp with rfl | rfl
            · simp at he
            · simp only [List.mem_singleton] at he
              exact ⟨t, he⟩
          · refine ih store2 e ?_
            rw [heq]
            exact he

theorem importCSVToTable_result {insertOk : String → List Row → Bool}
    {t content : String} {store store2 : Store} {cnt : Nat} {evs : List REvent}
    (h : importCSVToTable insertOk t content store = .ok (store2, cnt, evs)) :
    (importRows content = [] ∧ store2 = store ∧ cnt = 0 ∧ evs = []) ∨
    (importRows content ≠ [] ∧
      store2 = updateStore store t (store t ++ importRows content) ∧
      cnt = (importRows content).length ∧ evs = [REvent.insert t]) := by
  simp only [importCSVToTable] at h
  split_ifs at h with h1 h2
  · injection h with h3
    refine Or.inl ⟨List.length_eq_zero.mp h1, ?_, ?_, ?_⟩
    · exact (congrArg (fun p => p.1) h3).symm
    · exact (congrArg (fun p => p.2.1) h3).symm
    · exact (congrArg (fun p => p.2.2) h3).symm
  · injection h with h3
    refine Or.inr ⟨fun hc => h1 (by rw [hc]; rfl), ?_, ?_, ?_⟩
    · exact (congrArg (fun p => p.1) h3).symm
    · exact (congrArg (fun p => p.2.1) h3).symm
    · exact (congrArg (fun p => p.2.2) h3).symm

theorem loadLoop_ok_events (env : RestoreEnv) (csvRoot : String) :
    ∀ (ts : List String) (store st : Store) (rows : List (String × Nat)) (total : Nat),
      (loadLoop env csvRoot ts store).1 = .ok (st, rows, total) →
      (loadLoop env csvRoot ts store).2 =
        (ts.filter (fun t => insertHappens env csvRoot t)).map REvent.insert := by
  intro ts
  induction ts with
  | nil => intro store st rows total _; simp [loadLoop]
  | cons t rest ih =>
    intro store st rows total h
    cases hread : env.read (pathJoin csvRoot (t ++ ".csv")) with
    | none =>
      have hih : insertHappens env csvRoot t = false := by
        simp [insertHappens, hread]
      rcases hres : loadLoop env csvRoot rest store with ⟨r, evs⟩
      cases r with
      | ok x =>
        obtain ⟨st2, rows2, total2⟩ := x
        have h2 : loadLoop env csvRoot (t :: rest) store =
            (.ok (st2, ((t, 0) :: rows2, total2)), evs) := by
          simp only [loadLoop, hread, hres]
        rw [h2, List.filter_cons, hih]
        have hev := ih store st2 rows2 total2 (by rw [hres])
        rw [hres] at hev
        simpa using hev
      | error e =>
        have h2 : loadLoop env csvRoot (t :: rest) store = (.error e, evs) := by
          simp only [loadLoop, hread, hres]
        rw [h2] at h
        exact absurd h (by simp)
    | some content =>
      cases himp : importCSVToTable env.insertOk t content store with
      | error e =>
        have h2 : loadLoop env csvRoot (t :: rest) store = (.error (.app e), []) := by
          simp only [loadLoop, hread, himp]
        rw [h2] at h
        exact absurd h (by simp)
      | ok x =>
        obtain ⟨store2, cnt, evs⟩ := x
        rcases hres : loadLoop env csvRoot rest store2 with ⟨r, evs2⟩
        cases r with
        | ok y =>
          obtain ⟨st2, rows2, total2⟩ := y
          have h2 : loadLoop env csvRoot (t :: rest) store =
              (.ok (st2, ((t, cnt) :: rows2, total2 + cnt)), evs ++ evs2) := by
            simp only [loadLoop, hread, himp, hres]
          rw [h2, List.filter_cons]
          have hev := ih store2 st2 rows2 total2 (by rw [hres])
          rw [hres] at hev
          rcases importCSVToTable_result himp with ⟨he, -, -, rfl⟩ | ⟨he, -, -, rfl⟩
          · have hih : insertHappens env csvRoot t = false := by
              simp [insertHappens, hread, he]
            rw [hih]
            simpa using hev
          · have hih : insertHappens env csvRoot t = true := by
              simp only [insertHappens, hread, Bool.not_eq_true']
              rw [List.isEmpty_eq_false_iff_exists_mem]
              cases hr : importRows content with
              | nil => exact absurd hr he
              | cons a l => exact ⟨a, by simp⟩
            rw [hih]
            simp only [if_true, List.map_cons]
            simpa using hev
        | error e' =>
          have h2 : loadLoop env csvRoot (t :: rest) store = (.error e', evs ++ evs2) := by
            simp only [loadLoop, hread, himp, hres]
          rw [h2] at h
          exact absurd h (by simp)

theorem loadLoop_ok_shape (env : RestoreEnv) (csvRoot : String) :
    ∀ (ts : List String) (store st : Store) (rows : List (String × Nat)) (total : Nat),
      (loadLoop env csvRoot ts store).1 = .ok (st, rows, total) →
      rows.map Prod.fst = ts ∧ total = (rows.map Prod.snd).sum := by
  intro ts
  induction ts with
  | nil =>
    intro store st rows total h
    rw [loadLoop] at h
    injection h with h2
    simp only [Prod.mk.injEq] at h2
    obtain ⟨-, h3, h4⟩ := h2
    subst h3
    subst h4
    exact ⟨rfl, rfl⟩
  | cons t rest ih =>
    intro store st rows total h
    cases hread : env.read (pathJoin csvRoot (t ++ ".csv")) with
    | none =>
      rcases hres : loadLoop env csvRoot rest store with ⟨r, evs⟩
      cases r with
      | ok x =>
        obtain ⟨st2, rows2, total2⟩ := x
        have h2 : loadLoop env csvRoot (t :: rest) store =
            (.ok (st2, ((t, 0) :: rows2, total2)), evs) := by
          simp only [loadLoop, hread, hres]
        rw [h2] at h
        injection h with h3
        simp only [Prod.mk.injEq] at h3
        obtain ⟨-, h4, h5⟩ := h3
        subst h4
        subst h5
        obtain ⟨ihf, ihs⟩ := ih store st2 rows2 total2 (by rw [hres])
        exact ⟨by simp [ihf], by simp [ihs]⟩
      | error e =>
        have h2 : loadLoop env csvRoot (t :: rest) store = (.error e, evs) := by
          simp only [loadLoop, hread, hres]
        rw [h2] at h
        exact absurd h (by simp)
    | some content =>
      cases himp : importCSVToTable env.insertOk t content store with
      | error e =>
        have h2 : loadLoop env csvRoot (t :: rest) store = (.error (.app e), []) := by
          simp only [loadLoop, hread, himp]
        rw [h2] at h
        exact absurd h (by simp)
      | ok x =>
        obtain ⟨store2, cnt, evs⟩ := x
        rcases hres : loadLoop env csvRoot rest store2 with ⟨r, evs2⟩
        cases r with
        | ok y =>
          obtain ⟨st2, rows2, total2⟩ := y
          have h2 : loadLoop env csvRoot (t :: rest) store =
              (.ok (st2, ((t, cnt) :: rows2, total2 + cnt)), evs ++ evs2) := by
            simp only [loadLoop, hread, himp, hres]
          rw [h2] at h
          injection h with h3
          simp only [Prod.mk.injEq] at h3
          obtain ⟨-, h4, h5⟩ := h3
          subst h4
          subst h5
          obtain ⟨ihf, ihs⟩ := ih store2 st2 rows2 total2 (by rw [hres])
          refine ⟨by simp [ihf], ?_⟩
          simp only [List.map_cons, List.sum_cons]
          omega
        | error e' =>
          have h2 : loadLoop env csvRoot (t :: rest) store = (.error e', evs ++ evs2) := by
            simp only [loadLoop, hread, himp, hres]
          rw [h2] at h
          exact absurd h (by simp)

theorem replenishBody_error_shape (tables : List String) (env : RestoreEnv)
    (xdir : String) (store : Store) (thrown : Thrown)
    (h : (replenishBody tables env xdir store).result = .error thrown) :
    ((replenishBody tables env xdir store).txnOpen = false ∧
      (replenishBody tables env xdir store).events = []) ∨
    ((replenishBody tables env xdir store).txnOpen = true ∧
      ∃ evs, (replenishBody tables env xdir store).events = .txBegin :: evs ∧
        ∀ e ∈ evs, (∃ t, e = REvent.clear t) ∨ (∃ t, e = REvent.insert t)) := by
  cases hf : findCsvRoot xdir env.dir with
  | none =>
    have hb : replenishBody tables env xdir store =
        ⟨.error (.app ⟨.invalidBackupFile, "No CSV files found in backup", 400⟩),
         false, []⟩ := by
      simp only [replenishBody, hf]
    rw [hb]
    exact Or.inl ⟨rfl, rfl⟩
  | some csvRoot =>
    by_cases hemp : ((dirListing xdir env.dir csvRoot).filter
        (fun n => jsEndsWith n ".csv")).isEmpty
    · have hb : replenishBody tables env xdir store =
          ⟨.error (.app ⟨.invalidBackupFile, "No CSV files found in backup", 400⟩),
           false, []⟩ := by
        simp only [replenishBody, hf, hemp, if_true]
      rw [hb]
      exact Or.inl ⟨rfl, rfl⟩
    · rcases hc : clearLoop env.clearOk tables.reverse store with ⟨cr, cevs⟩
      cases cr with
      | error e =>
        have hb : replenishBody tables env xdir store =
            ⟨.error e, true, .txBegin :: cevs⟩ := by
          simp only [replenishBody, hf, hemp, Bool.false_eq_true, if_false, hc]
        rw [hb]
        refine Or.inr ⟨rfl, cevs, rfl, ?_⟩
        intro ev hev
        exact Or.inl (clearLoop_mem_events env.clearOk tables.reverse store ev
          (by rw [hc]; exact hev))
      | ok cleared =>
        rcases hl : loadLoop env csvRoot tables cleared with ⟨lr, levs⟩
        cases lr with
        | error e =>
          have hb : replenishBody tables env xdir store =
              ⟨.error e, true, .txBegin :: (cevs ++ levs)⟩ := by
            simp only [replenishBody, hf, hemp, Bool.false_eq_true, if_false, hc, hl]
          rw [hb]
          refine Or.inr ⟨rfl, cevs ++ levs, rfl, ?_⟩
          intro ev hev
          rcases List.mem_append.mp hev with hev | hev
          · exact Or.inl (clearLoop_mem_events env.clearOk tables.reverse store ev
              (by rw [hc]; exact hev))
          · exact Or.inr (loadLoop_mem_events env csvRoot tables cleared ev
              (by rw [hl]; exact hev))
        | ok x =>
          obtain ⟨finalStore, rows, total⟩ := x
          have hb : replenishBody tables env xdir store =
              ⟨.ok (⟨rows.length, rows, total⟩, finalStore), false,
               .txBegin :: (cevs ++ levs) ++ [.commit]⟩ := by
            simp only [replenishBody, hf, hemp, Bool.false_eq_true, if_false, hc, hl]
          rw [hb] at h
          exact absurd h (by simp)

theorem replenishBody_ok_shape (tables : List String) (env : RestoreEnv)
    (xdir : String) (store : Store) (resp : RestoreResponse) (st2 : Store)
    (h : (replenishBody tables env xdir store).result = .ok (resp, st2)) :
    ∃ csvRoot, findCsvRoot xdir env.dir = some csvRoot ∧
      (replenishBody tables env xdir store).events =
        .txBegin :: (tables.reverse.map REvent.clear ++
          ((tables.filter (fun t => insertHappens env csvRoot t)).map REvent.insert) ++
          [.commit]) ∧
      resp.rowsImported.map Prod.fst = tables ∧
      resp.tablesImported = tables.length ∧
      resp.totalRows = (resp.rowsImported.map Prod.snd).sum := by
  cases hf : findCsvRoot xdir env.dir with
  | none =>
    have hb : (replenishBody tables env xdir store).result =
        .error (.app ⟨.invalidBackupFile, "No CSV files found in backup", 400⟩) := by
      simp only [replenishBody, hf]
    rw [hb] at h
    exact absurd h (by simp)
  | some csvRoot =>
    by_cases hemp : ((dirListing xdir env.dir csvRoot).filter
        (fun n => jsEndsWith n ".csv")).isEmpty
    · have hb : (replenishBody tables env xdir store).result =
          .error (.app ⟨.invalidBackupFile, "No CSV files found in backup", 400⟩) := by
        simp only [replenishBody, hf, hemp, if_true]
      rw [hb] at h
      exact absurd h (by simp)
    · rcases hc : clearLoop env.clearOk tables.reverse store with ⟨cr, cevs⟩
      cases cr with
      | error e =>
        have hb : (replenishBody tables env xdir store).result = .error e := by
          simp only [replenishBody, hf, hemp, Bool.false_eq_true, if_false, hc]
        rw [hb] at h
        exact absurd h (by simp)
      | ok cleared =>
        rcases hl : loadLoop env csvRoot tables cleared with ⟨lr, levs⟩
        cases lr with
        | error e =>
          have hb : (replenishBody tables env xdir store).result = .error e := by
            simp only [replenishBody, hf, hemp, Bool.false_eq_true, if_false, hc, hl]
          rw [hb] at h
          exact absurd h (by simp)
        | ok x =>
          obtain ⟨finalStore, rows, total⟩ := x
          have hb : replenishBody tables env xdir store =
              ⟨.ok (⟨rows.length, rows, total⟩, finalStore), false,
               .txBegin :: (cevs ++ levs) ++ [.commit]⟩ := by
            simp only [replenishBody, hf, hemp, Bool.false_eq_true, if_false, hc, hl]
          rw [hb] at h ⊢
          injection h with h2
          simp only [Prod.mk.injEq] at h2
          obtain ⟨h3, -⟩ := h2
          have hcev : cevs = tables.reverse.map REvent.clear := by
            have hce := clearLoop_ok_events env.clearOk tables.reverse store cleared
              (by rw [hc])
            rw [hc] at hce
            exact hce
          have hlev : levs = (tables.filter (fun t => insertHappens env csvRoot t)).map
              REvent.insert := by
            have hle := loadLoop_ok_events env csvRoot tables cleared finalStore rows
              total (by rw [hl])
            rw [hl] at hle
            exact hle
          obtain ⟨hrf, hrs⟩ := loadLoop_ok_shape env csvRoot tables cleared finalStore
            rows total (by rw [hl])
          refine ⟨csvRoot, rfl, ?_, ?_, ?_, ?_⟩
          · rw [hcev, hlev]
            simp [List.append_assoc]
          · rw [← h3]
            exact hrf
          · rw [← h3]
            simpa using congrArg List.length hrf
          · rw [← h3]
            exact hrs

/-- Claim C1: if a restore raises any error after the transaction is opened
and before commit, then the transaction is rolled back strictly before the
temporary-directory and uploaded-file cleanup events, and the store after
the failed restore equals the store before it. -/
theorem restore_rollback_before_cleanup (tables : List String) (env : RestoreEnv)
    (xdir : String) (store : Store)
    (herr : ∃ err, (replenishDatabase tables env xdir store).1 = .error err)
    (htx : REvent.txBegin ∈ (replenishDatabase tables env xdir store).2.2) :
    (replenishDatabase tables env xdir store).2.1 = store ∧
    ∃ evs, (replenishDatabase tables env xdir store).2.2 =
        evs ++ REvent.rollback :: cleanupEvents env ∧
      REvent.cleanupDir ∉ evs ∧ REvent.cleanupUpload ∉ evs := by
  obtain ⟨err, herr⟩ := herr
  rcases hb : replenishBody tables env xdir store with ⟨res, txn, events⟩
  cases res with
  | ok x =>
    obtain ⟨resp, store2⟩ := x
    have hr : replenishDatabase tables env xdir store =
        (.ok resp, store2, events ++ cleanupEvents env) := by
      simp only [replenishDatabase, hb]
    rw [hr] at herr
    exact absurd herr (by simp)
  | error thrown =>
    have hr : replenishDatabase tables env xdir store =
        (.error (wrapRestoreError thrown), store,
         events ++ (if txn then [.rollback] else []) ++ cleanupEvents env) := by
      simp only [replenishDatabase, hb]
    rcases replenishBody_error_shape tables env xdir store thrown (by rw [hb]) with
      ⟨ht, he⟩ | ⟨ht, evs, he, hmem⟩
    · rw [hb] at ht he
      simp only at ht he
      subst ht
      subst he
      rw [hr] at htx
      exfalso
      simp only [List.nil_append, if_false, Bool.false_eq_true] at htx
      unfold cleanupEvents at htx
      split_ifs at htx <;> simp at htx
    · rw [hb] at ht he
      simp only at ht he
      subst ht
      subst he
      rw [hr]
      refine ⟨rfl, REvent.txBegin :: evs, ?_, ?_, ?_⟩
      · simp [List.append_assoc]
      · intro hcd
        rcases List.mem_cons.mp hcd with hcd | hcd
        · cases hcd
        · rcases hmem _ hcd with ⟨t, ht2⟩ | ⟨t, ht2⟩ <;> cases ht2
      · intro hcu
        rcases List.mem_cons.mp hcu with hcu | hcu
        · cases hcu
        · rcases hmem _ hcu with ⟨t, ht2⟩ | ⟨t, ht2⟩ <;> cases ht2

/-- Witness for C1: a one-table restore whose Clearing step throws; the store
is untouched and the rollback precedes both cleanup events. -/
theorem restore_rollback_before_cleanup_witness :
    (∃ err, (replenishDatabase ["Users"]
        ⟨⟨["Users.csv"], []⟩, fun _ => none, fun _ => false, fun _ _ => true, false⟩
        "/x" (fun _ => [])).1 = .error err) ∧
    ((replenishDatabase ["Users"]
        ⟨⟨["Users.csv"], []⟩, fun _ => none, fun _ => false, fun _ _ => true, false⟩
        "/x" (fun _ => [])).2.1 = (fun _ => []) ∧
     ∃ evs, (replenishDatabase ["Users"]
        ⟨⟨["Users.csv"], []⟩, fun _ => none, fun _ => false, fun _ _ => true, false⟩
        "/x" (fun _ => [])).2.2 =
          evs ++ REvent.rollback :: cleanupEvents
            ⟨⟨["Users.csv"], []⟩, fun _ => none, fun _ => false, fun _ _ => true, false⟩ ∧
       REvent.cleanupDir ∉ evs ∧ REvent.cleanupUpload ∉ evs) :=
  ⟨⟨⟨.restoreFailed, "Failed to restore database", 500⟩, rfl⟩,
   restore_rollback_before_cleanup ["Users"]
     ⟨⟨["Users.csv"], []⟩, fun _ => none, fun _ => false, fun _ _ => true, false⟩
     "/x" (fun _ => [])
     ⟨⟨.restoreFailed, "Failed to restore database", 500⟩, rfl⟩
     (by decide)⟩

/-- Claim C6: `findCsvRoot` only ever selects the extraction directory itself
or one of its immediate subdirectories (one nested level), and when neither
the top level nor any immediate subdirectory holds a `.csv` file the restore
fails with the terminal `InvalidBackupFile` error without ever opening the
transaction. -/
theorem locating_depth_one_and_terminal (tables : List String) (env : RestoreEnv)
    (xdir : String) (store : Store)
    (h1 : hasCsv env.dir.files = false)
    (h2 : ∀ sd ∈ env.dir.subdirs, hasCsv sd.2 = false) :
    (∀ (d : Dir) (p : String), findCsvRoot xdir d = some p →
      p = xdir ∨ ∃ sd ∈ d.subdirs, p = pathJoin xdir sd.1) ∧
    findCsvRoot xdir env.dir = none ∧
    (replenishDatabase tables env xdir store).1 =
      .error ⟨.invalidBackupFile, "No CSV files found in backup", 400⟩ ∧
    REvent.txBegin ∉ (replenishDatabase tables env xdir store).2.2 := by
  have hdepth : ∀ (d : Dir) (p : String), findCsvRoot xdir d = some p →
      p = xdir ∨ ∃ sd ∈ d.subdirs, p = pathJoin xdir sd.1 := by
    intro d p hp
    unfold findCsvRoot at hp
    split_ifs at hp with hc
    · exact Or.inl (Option.some.injEq .. ▸ hp).symm
    · cases hfind : d.subdirs.find? (fun sd => hasCsv sd.2) with
      | none => rw [hfind] at hp; cases hp
      | some sd =>
        rw [hfind] at hp
        refine Or.inr ⟨sd, List.mem_of_find?_eq_some hfind, ?_⟩
        exact (Option.some.injEq .. ▸ hp).symm
  have hnone : findCsvRoot xdir env.dir = none := by
    unfold findCsvRoot
    rw [h1]
    simp only [Bool.false_eq_true, if_false]
    rw [List.find?_eq_none.mpr (by intro sd hsd; simp [h2 sd hsd])]
  have hb : replenishBody tables env xdir store =
      ⟨.error (.app ⟨.invalidBackupFile, "No CSV files found in backup", 400⟩),
       false, []⟩ := by
    simp only [replenishBody, hnone]
  have hr : replenishDatabase tables env xdir store =
      (.error ⟨.invalidBackupFile, "No CSV files found in backup", 400⟩,
       store, [] ++ (if false then [.rollback] else []) ++ cleanupEvents env) := by
    simp only [replenishDatabase, hb]
    rfl
  refine ⟨hdepth, hnone, ?_, ?_⟩
  · rw [hr]
  · rw [hr]
    unfold cleanupEvents
    split_ifs <;> simp

/-- Witness for C6: a tree with no `.csv` at the top and a subdirectory
holding only a text file. -/
theorem locating_depth_one_and_terminal_witness :
    (hasCsv (Dir.mk ["readme.txt"] [("nested", ["data.txt"])]).files = false) ∧
    ((∀ (d : Dir) (p : String), findCsvRoot "/x" d = some p →
        p = "/x" ∨ ∃ sd ∈ d.subdirs, p = pathJoin "/x" sd.1) ∧
     findCsvRoot "/x" ⟨["readme.txt"], [("nested", ["data.txt"])]⟩ = none ∧
     (replenishDatabase ["Users"]
        ⟨⟨["readme.txt"], [("nested", ["data.txt"])]⟩, fun _ => none,
         fun _ => true, fun _ _ => true, false⟩ "/x" (fun _ => [])).1 =
       .error ⟨.invalidBackupFile, "No CSV files found in backup", 400⟩ ∧
     REvent.txBegin ∉ (replenishDatabase ["Users"]
        ⟨⟨["readme.txt"], [("nested", ["data.txt"])]⟩, fun _ => none,
         fun _ => true, fun _ _ => true, false⟩ "/x" (fun _ => [])).2.2) :=
  ⟨by decide,
   locating_depth_one_and_terminal ["Users"]
     ⟨⟨["readme.txt"], [("nested", ["data.txt"])]⟩, fun _ => none,
      fun _ => true, fun _ _ => true, false⟩ "/x" (fun _ => [])
     (by decide) (by decide)⟩

/-- Claim C7: during Loading, a missing data file or a data file with zero
data rows records an imported count of zero for that entity and the pass
continues with the next entity exactly as it would have without it — in
particular it raises no error. -/
theorem load_missing_or_empty_is_zero (env : RestoreEnv) (csvRoot t : String)
    (rest : List String) (store : Store)
    (hzero : env.read (pathJoin csvRoot (t ++ ".csv")) = none ∨
      ∃ c, env.read (pathJoin csvRoot (t ++ ".csv")) = some c ∧ importRows c = []) :
    (loadLoop env csvRoot (t :: rest) store).2 = (loadLoop env csvRoot rest store).2 ∧
    (∀ st rows total, (loadLoop env csvRoot rest store).1 = .ok (st, rows, total) →
      (loadLoop env csvRoot (t :: rest) store).1 = .ok (st, (t, 0) :: rows, total)) ∧
    (∀ e, (loadLoop env csvRoot rest store).1 = .error e →
      (loadLoop env csvRoot (t :: rest) store).1 = .error e) := by
  have hstep : ∀ (r : (Except Thrown (Store × List (String × Nat) × Nat)) × List REvent),
      loadLoop env csvRoot rest store = r →
      loadLoop env csvRoot (t :: rest) store =
        (match r.1 with
         | .ok (st, rows, total) => .ok (st, ((t, 0) :: rows, total))
         | .error e => .error e, r.2) := by
    intro r hres
    rcases hzero with hz | ⟨c, hz, hempty⟩
    · rcases r with ⟨res, evs⟩
      cases res with
      | ok x =>
        obtain ⟨st, rows, total⟩ := x
        simp only [loadLoop, hz, hres]
      | error e =>
        simp only [loadLoop, hz, hres]
    · have himp : importCSVToTable env.insertOk t c store = .ok (store, 0, []) := by
        simp only [importCSVToTable, hempty]
        rfl
      rcases r with ⟨res, evs⟩
      cases res with
      | ok x =>
        obtain ⟨st, rows, total⟩ := x
        simp only [loadLoop, hz, himp, hres, Nat.add_zero, List.nil_append]
      | error e =>
        simp only [loadLoop, hz, himp, hres, List.nil_append]
  have h := hstep (loadLoop env csvRoot rest store) rfl
  refine ⟨by rw [h], ?_, ?_⟩
  · intro st rows total hok
    rw [h]
    simp only [hok]
  · intro e herr
    rw [h]
    simp only [herr]

/-- Witness for C7: the entity's file is absent; the loop records zero and
finishes successfully. -/
theorem load_missing_or_empty_is_zero_witness :
    ((fun _ => (none : Option String)) (pathJoin "/x" ("Users" ++ ".csv")) = none ∨
     ∃ c, (fun _ => (none : Option String)) (pathJoin "/x" ("Users" ++ ".csv")) = some c ∧
       importRows c = []) ∧
    ((loadLoop ⟨⟨[], []⟩, fun _ => none, fun _ => true, fun _ _ => true, false⟩
        "/x" ["Users"] (fun _ => [])).2 =
       (loadLoop ⟨⟨[], []⟩, fun _ => none, fun _ => true, fun _ _ => true, false⟩
        "/x" [] (fun _ => [])).2 ∧
     (∀ st rows total,
       (loadLoop ⟨⟨[], []⟩, fun _ => none, fun _ => true, fun _ _ => true, false⟩
          "/x" [] (fun _ => [])).1 = .ok (st, rows, total) →
       (loadLoop ⟨⟨[], []⟩, fun _ => none, fun _ => true, fun _ _ => true, false⟩
          "/x" ["Users"] (fun _ => [])).1 = .ok (st, ("Users", 0) :: rows, total)) ∧
     (∀ e, (loadLoop ⟨⟨[], []⟩, fun _ => none, fun _ => true, fun _ _ => true, false⟩
          "/x" [] (fun _ => [])).1 = .error e →
       (loadLoop ⟨⟨[], []⟩, fun _ => none, fun _ => true, fun _ _ => true, false⟩
          "/x" ["Users"] (fun _ => [])).1 = .error e)) :=
  ⟨Or.inl rfl,
   load_missing_or_empty_is_zero
     ⟨⟨[], []⟩, fun _ => none, fun _ => true, fun _ _ => true, false⟩
     "/x" "Users" [] (fun _ => []) (Or.inl rfl)⟩

/-- Claim C2: a restore that reaches commit emits exactly: transaction begin,
one clear per registry entity in strictly reverse registry order, then the
inserts in strictly forward registry order (one per entity whose file is
present with data rows), then the commit — the two passes are sequential
blocks and never interleave. -/
theorem restore_clear_reverse_load_forward (tables : List String) (env : RestoreEnv)
    (xdir : String) (store : Store) (resp : RestoreResponse)
    (hok : (replenishDatabase tables env xdir store).1 = .ok resp) :
    ∃ csvRoot, findCsvRoot xdir env.dir = some csvRoot ∧
      (replenishDatabase tables env xdir store).2.2 =
        REvent.txBegin :: (tables.reverse.map REvent.clear ++
          (tables.filter (fun t => insertHappens env csvRoot t)).map REvent.insert ++
          [REvent.commit]) ++ cleanupEvents env := by
  rcases hb : replenishBody tables env xdir store with ⟨res, txn, events⟩
  cases res with
  | error thrown =>
    have hr : (replenishDatabase tables env xdir store).1 =
        .error (wrapRestoreError thrown) := by
      simp only [replenishDatabase, hb]
    rw [hr] at hok
    exact absurd hok (by simp)
  | ok x =>
    obtain ⟨resp2, store2⟩ := x
    have hr : replenishDatabase tables env xdir store =
        (.ok resp2, store2, events ++ cleanupEvents env) := by
      simp only [replenishDatabase, hb]
    obtain ⟨csvRoot, hf, hev, -, -, -⟩ :=
      replenishBody_ok_shape tables env xdir store resp2 store2 (by rw [hb])
    rw [hb] at hev
    simp only at hev
    refine ⟨csvRoot, hf, ?_⟩
    rw [hr]
    simp only [hev, List.cons_append, List.append_assoc]

/-- Witness for C2 at the three-entity registry `["A", "B", "C"]`: the trace
deletes `C, B, A` and then loads `A, B, C` before the commit. -/
theorem restore_clear_reverse_load_forward_witness :
    ((replenishDatabase ["A", "B", "C"]
        ⟨⟨["x.csv"], []⟩, fun _ => none, fun _ => true, fun _ _ => true, false⟩
        "/x" (fun _ => [])).1 = .ok ⟨3, [("A", 0), ("B", 0), ("C", 0)], 0⟩) ∧
    (∃ csvRoot, findCsvRoot "/x"
        (Dir.mk ["x.csv"] []) = some csvRoot ∧
      (replenishDatabase ["A", "B", "C"]
        ⟨⟨["x.csv"], []⟩, fun _ => none, fun _ => true, fun _ _ => true, false⟩
        "/x" (fun _ => [])).2.2 =
        REvent.txBegin :: ((["A", "B", "C"] : List String).reverse.map REvent.clear ++
          ((["A", "B", "C"] : List String).filter
            (fun t => insertHappens
              ⟨⟨["x.csv"], []⟩, fun _ => none, fun _ => true, fun _ _ => true, false⟩
              csvRoot t)).map REvent.insert ++
          [REvent.commit]) ++ cleanupEvents
            ⟨⟨["x.csv"], []⟩, fun _ => none, fun _ => true, fun _ _ => true, false⟩) :=
  ⟨rfl,
   restore_clear_reverse_load_forward ["A", "B", "C"]
     ⟨⟨["x.csv"], []⟩, fun _ => none, fun _ => true, fun _ _ => true, false⟩
     "/x" (fun _ => []) ⟨3, [("A", 0), ("B", 0), ("C", 0)], 0⟩ rfl⟩

/-- Claim C10: every successful restore's response has exactly one
`rowsImported` entry per registry entity, in registry order; its
`tablesImported` equals the registry size 9; and its `totalRows` is the sum
of the per-entity counts. -/
theorem restore_response_covers_registry (env : RestoreEnv) (xdir : String)
    (store : Store) (resp : RestoreResponse)
    (hok : (replenishDatabase getAllTables env xdir store).1 = .ok resp) :
    resp.rowsImported.map Prod.fst = getAllTables ∧
    resp.tablesImported = 9 ∧
    resp.totalRows = (resp.rowsImported.map Prod.snd).sum := by
  rcases hb : replenishBody getAllTables env xdir store with ⟨res, txn, events⟩
  cases res with
  | error thrown =>
    have hr : (replenishDatabase getAllTables env xdir store).1 =
        .error (wrapRestoreError thrown) := by
      simp only [replenishDatabase, hb]
    rw [hr] at hok
    exact absurd hok (by simp)
  | ok x =>
    obtain ⟨resp2, store2⟩ := x
    have hr : (replenishDatabase getAllTables env xdir store).1 = .ok resp2 := by
      simp only [replenishDatabase, hb]
    rw [hr] at hok
    injection hok with hok2
    subst hok2
    obtain ⟨csvRoot, -, -, hfst, hcount, hsum⟩ :=
      replenishBody_ok_shape getAllTables env xdir store resp2 store2 (by rw [hb])
    exact ⟨hfst, hcount, hsum⟩

/-- Witness for C10: a successful restore of the real registry from an
archive that contains a data file for no entity: nine zero entries. -/
theorem restore_response_covers_registry_witness :
    ((replenishDatabase getAllTables
        ⟨⟨["x.csv"], []⟩, fun _ => none, fun _ => true, fun _ _ => true, false⟩
        "/x" (fun _ => [])).1 =
      .ok ⟨9, [("Users", 0), ("Mantras", 0), ("ContractUsersMantras", 0),
        ("ContractUserMantraListen", 0), ("ElevenLabsFiles", 0), ("Queue", 0),
        ("SoundFiles", 0), ("ContractMantrasElevenLabsFiles", 0),
        ("ContractMantrasSoundFiles", 0)], 0⟩) ∧
    ((⟨9, [("Users", 0), ("Mantras", 0), ("ContractUsersMantras", 0),
        ("ContractUserMantraListen", 0), ("ElevenLabsFiles", 0), ("Queue", 0),
        ("SoundFiles", 0), ("ContractMantrasElevenLabsFiles", 0),
        ("ContractMantrasSoundFiles", 0)], 0⟩ : RestoreResponse).rowsImported.map
          Prod.fst = getAllTables ∧
     (⟨9, [("Users", 0), ("Mantras", 0), ("ContractUsersMantras", 0),
        ("ContractUserMantraListen", 0), ("ElevenLabsFiles", 0), ("Queue", 0),
        ("SoundFiles", 0), ("ContractMantrasElevenLabsFiles", 0),
        ("ContractMantrasSoundFiles", 0)], 0⟩ : RestoreResponse).tablesImported = 9 ∧
     (⟨9, [("Users", 0), ("Mantras", 0), ("ContractUsersMantras", 0),
        ("ContractUserMantraListen", 0), ("ElevenLabsFiles", 0), ("Queue", 0),
        ("SoundFiles", 0), ("ContractMantrasElevenLabsFiles", 0),
        ("ContractMantrasSoundFiles", 0)], 0⟩ : RestoreResponse).totalRows =
       ((⟨9, [("Users", 0), ("Mantras", 0), ("ContractUsersMantras", 0),
        ("ContractUserMantraListen", 0), ("ElevenLabsFiles", 0), ("Queue", 0),
        ("SoundFiles", 0), ("ContractMantrasElevenLabsFiles", 0),
        ("ContractMantrasSoundFiles", 0)], 0⟩ : RestoreResponse).rowsImported.map
          Prod.snd).sum) :=
  ⟨rfl,
   restore_response_covers_registry
     ⟨⟨["x.csv"], []⟩, fun _ => none, fun _ => true, fun _ _ => true, false⟩
     "/x" (fun _ => [])
     ⟨9, [("Users", 0), ("Mantras", 0), ("ContractUsersMantras", 0),
       ("ContractUserMantraListen", 0), ("ElevenLabsFiles", 0), ("Queue", 0),
       ("SoundFiles", 0), ("ContractMantrasElevenLabsFiles", 0),
       ("ContractMantrasSoundFiles", 0)], 0⟩ rfl⟩

/-- Witness for C8: the error at the empty registry, and the actual registry
(nine entries, non-empty) never hits that branch. -/
theorem createBackup_empty_registry_fails_witness :
    (createBackupRoute [] "20260101_000000" true true =
      .error ⟨.backupFailed, "No tables found to export", 500⟩) ∧
    getAllTables ≠ [] ∧
    createBackupRoute getAllTables "20260101_000000" true true ≠
      .error ⟨.backupFailed, "No tables found to export", 500⟩ :=
  ⟨(createBackup_empty_registry_fails "20260101_000000" true true).1,
   by decide,
   (createBackup_empty_registry_fails "20260101_000000" true true).2.1
     getAllTables (by decide)⟩

theorem resolveSegments_cons (acc : List String) (s : String) (rest : List String) :
    resolveSegments acc (s :: rest) =
      if s = ".." then
        (match acc with
         | [] => none
         | _ :: _ => resolveSegments acc.dropLast rest)
      else if s = "." || s = "" then resolveSegments acc rest
      else resolveSegments (acc ++ [s]) rest := rfl

theorem resolveSegments_no_parent {segs : List String} (h : ".." ∉ segs) :
    ∀ acc : List String, ∃ suffix, resolveSegments acc segs = some (acc ++ suffix) := by
  induction segs with
  | nil => intro acc; exact ⟨[], by simp [resolveSegments]⟩
  | cons s rest ih =>
    intro acc
    have hs : s ≠ ".." := fun hc => h (hc ▸ List.mem_cons_self s rest)
    have hrest : ".." ∉ rest := fun hc => h (List.mem_cons_of_mem s hc)
    by_cases hdot : (s = "." || s = "") = true
    · obtain ⟨suffix, hsf⟩ := ih hrest acc
      refine ⟨suffix, ?_⟩
      rw [resolveSegments_cons, if_neg hs, if_pos hdot]
      exact hsf
    · obtain ⟨suffix, hsf⟩ := ih hrest (acc ++ [s])
      refine ⟨[s] ++ suffix, ?_⟩
      rw [resolveSegments_cons, if_neg hs, if_neg hdot]
      rw [hsf]
      simp [List.append_assoc]

/-- Claim C3: every filesystem path that `extractZip` writes resolves to a
location below the destination directory: it is `destDir` joined with a safe
entry name, and resolving its parent-directory and current-directory
segments against `destDir` lands on `destDir` extended by some suffix —
never outside it, whatever the entries (including ones whose stored names
carry `..` segments, which are rejected). -/
theorem extractZip_stays_within_dest (entries : List ZipEntry)
    (destDir written : String) (hw : written ∈ extractZip entries destDir) :
    ∃ name suffix, written = pathJoin destDir name ∧ entryIsSafe name = true ∧
      resolveSegments (pathSegments destDir) (pathSegments name) =
        some (pathSegments destDir ++ suffix) := by
  unfold extractZip at hw
  rw [List.mem_map] at hw
  obtain ⟨e, he, hwrit⟩ := hw
  rw [List.mem_filter] at he
  obtain ⟨-, hsafe⟩ := he
  have hnp : ".." ∉ pathSegments e.name := by
    intro hm
    have hcont := (Bool.and_eq_true _ _ |>.mp hsafe).1
    rw [Bool.not_eq_eq_eq_not] at hcont
    simp only [Bool.not_true] at hcont
    have hcont2 : List.elem ".." (pathSegments e.name) = false := hcont
    have htf : (true : Bool) = false := (List.elem_iff.mpr hm).symm.trans hcont2
    cases htf
  obtain ⟨suffix, hs⟩ := resolveSegments_no_parent hnp (pathSegments destDir)
  exact ⟨e.name, suffix, hwrit.symm, hsafe, hs⟩

/-- Witness for C3: an archive holding one safe entry and one zip-slip entry;
the safe entry's written path resolves under the destination. -/
theorem extractZip_stays_within_dest_witness :
    ("/dest/ok/file.csv" ∈
      extractZip [⟨"ok/file.csv", "rows"⟩, ⟨"../evil.csv", "x"⟩] "/dest") ∧
    (∃ name suffix, "/dest/ok/file.csv" = pathJoin "/dest" name ∧
      entryIsSafe name = true ∧
      resolveSegments (pathSegments "/dest") (pathSegments name) =
        some (pathSegments "/dest" ++ suffix)) :=
  ⟨by decide,
   extractZip_stays_within_dest [⟨"ok/file.csv", "rows"⟩, ⟨"../evil.csv", "x"⟩]
     "/dest" "/dest/ok/file.csv" (by decide)⟩

/-! ### Lexicographic monotonicity of `generateTimestamp` (C9) -/

theorem lex_append_of_length_eq {r : Char → Char → Prop} :
    ∀ {l₁ l₂ : List Char} (m₁ m₂ : List Char), l₁.length = l₂.length →
      List.Lex r l₁ l₂ → List.Lex r (l₁ ++ m₁) (l₂ ++ m₂) := by
  intro l₁ l₂ m₁ m₂ hlen h
  induction h with
  | nil => simp at hlen
  | rel hr => exact List.Lex.rel hr
  | cons h2 ih =>
    exact List.Lex.cons (ih (by simpa using hlen))

theorem lex_append_right_of_lex {r : Char → Char → Prop} :
    ∀ (l : List Char) {m₁ m₂ : List Char},
      List.Lex r m₁ m₂ → List.Lex r (l ++ m₁) (l ++ m₂) := by
  intro l
  induction l with
  | nil => intro m₁ m₂ h; exact h
  | cons c cs ih => intro m₁ m₂ h; exact List.Lex.cons (ih h)

theorem lex_append_strict {l₁ l₂ m₁ m₂ : List Char}
    (hlen : l₁.length = l₂.length)
    (h : List.Lex (· < ·) l₁ l₂ ∨ (l₁ = l₂ ∧ List.Lex (· < ·) m₁ m₂)) :
    List.Lex (· < ·) (l₁ ++ m₁) (l₂ ++ m₂) := by
  rcases h with h | ⟨rfl, h⟩
  · exact lex_append_of_length_eq m₁ m₂ hlen h
  · exact lex_append_right_of_lex l₁ h

theorem pad2_lt_of_lt : ∀ a b : Fin 100, a.val < b.val →
    List.Lex (· < ·) (pad2 a.val) (pad2 b.val) := by
  set_option maxRecDepth 4000 in decide

theorem pad2_lt {a b : Nat} (hab : a < b) (hb : b < 100) :
    List.Lex (· < ·) (pad2 a) (pad2 b) :=
  pad2_lt_of_lt ⟨a, Nat.lt_trans hab hb⟩ ⟨b, hb⟩ hab

theorem year4_decomp (y : Nat) : year4 y = pad2 (y / 100) ++ pad2 (y % 100) := by
  unfold year4 pad2
  have h1 : y / 100 / 10 = y / 1000 := by
    rw [Nat.div_div_eq_div_mul]
  have h2 : y % 100 / 10 = y / 10 % 10 := by
    have := Nat.mod_mul_right_div_self y 10 10
    simpa using this
  have h3 : y % 100 % 10 = y % 10 := Nat.mod_mod_of_dvd y (by norm_num)
  rw [h1, h2, h3]
  rfl

theorem year4_lt {y₁ y₂ : Nat} (h : y₁ < y₂) (h2 : y₂ < 10000) :
    List.Lex (· < ·) (year4 y₁) (year4 y₂) := by
  rw [year4_decomp y₁, year4_decomp y₂]
  refine lex_append_strict rfl ?_
  rcases (by omega : y₁ / 100 < y₂ / 100 ∨
      (y₁ / 100 = y₂ / 100 ∧ y₁ % 100 < y₂ % 100)) with hs | ⟨he, hs⟩
  · exact Or.inl (pad2_lt hs (by omega))
  · exact Or.inr ⟨by rw [he], pad2_lt hs (by omega)⟩

/-- The character prefix of a timestamp through the month. -/
def tsPrefix2 (t : DateTime) : List Char := year4 t.year ++ pad2 t.month

/-- Through the day. -/
def tsPrefix3 (t : DateTime) : List Char := tsPrefix2 t ++ pad2 t.day

/-- Through the separating underscore. -/
def tsPrefix4 (t : DateTime) : List Char := tsPrefix3 t ++ ['_']

/-- Through the hours. -/
def tsPrefix5 (t : DateTime) : List Char := tsPrefix4 t ++ pad2 t.hours

/-- Through the minutes. -/
def tsPrefix6 (t : DateTime) : List Char := tsPrefix5 t ++ pad2 t.minutes

/-- Numeric key of the prefix through the month. -/
def key2 (t : DateTime) : Nat := t.year * 100 + t.month

/-- Through the day. -/
def key3 (t : DateTime) : Nat := key2 t * 100 + t.day

/-- Through the hours. -/
def key4 (t : DateTime) : Nat := key3 t * 100 + t.hours

/-- Through the minutes. -/
def key5 (t : DateTime) : Nat := key4 t * 100 + t.minutes

theorem generateTimestamp_data (t : DateTime) :
    (generateTimestamp t).data = tsPrefix6 t ++ pad2 t.seconds := by
  unfold generateTimestamp tsPrefix6 tsPrefix5 tsPrefix4 tsPrefix3 tsPrefix2
  simp [List.append_assoc]

theorem key_eq_key5 (t : DateTime) : t.key = key5 t * 100 + t.seconds := rfl

theorem tsPrefix2_lt {t₁ t₂ : DateTime} (h₁ : t₁.valid) (h₂ : t₂.valid)
    (hk : key2 t₁ < key2 t₂) :
    List.Lex (· < ·) (tsPrefix2 t₁) (tsPrefix2 t₂) := by
  obtain ⟨hy₁, hy₁u, hm₁, hm₁u, -⟩ := h₁
  obtain ⟨hy₂, hy₂u, hm₂, hm₂u, -⟩ := h₂
  unfold key2 at hk
  unfold tsPrefix2
  refine lex_append_strict (by simp [year4]) ?_
  rcases (by omega : t₁.year < t₂.year ∨
      (t₁.year = t₂.year ∧ t₁.month < t₂.month)) with hs | ⟨he, hs⟩
  · exact Or.inl (year4_lt hs (by omega))
  · exact Or.inr ⟨by rw [he], pad2_lt hs (by omega)⟩

theorem tsPrefix2_eq {t₁ t₂ : DateTime} (h₁ : t₁.valid) (h₂ : t₂.valid)
    (hk : key2 t₁ = key2 t₂) : tsPrefix2 t₁ = tsPrefix2 t₂ := by
  obtain ⟨hy₁, hy₁u, hm₁, hm₁u, -⟩ := h₁
  obtain ⟨hy₂, hy₂u, hm₂, hm₂u, -⟩ := h₂
  unfold key2 at hk
  have hy : t₁.year = t₂.year := by omega
  have hm : t₁.month = t₂.month := by omega
  unfold tsPrefix2
  rw [hy, hm]

theorem tsPrefix3_lt {t₁ t₂ : DateTime} (h₁ : t₁.valid) (h₂ : t₂.valid)
    (hk : key3 t₁ < key3 t₂) :
    List.Lex (· < ·) (tsPrefix3 t₁) (tsPrefix3 t₂) := by
  have hd₁ := h₁
  have hd₂ := h₂
  obtain ⟨-, -, -, -, hdy₁, hdu₁, -⟩ := hd₁
  obtain ⟨-, -, -, -, hdy₂, hdu₂, -⟩ := hd₂
  unfold key3 at hk
  unfold tsPrefix3
  refine lex_append_strict (by simp [tsPrefix2, year4, pad2]) ?_
  rcases (by omega : key2 t₁ < key2 t₂ ∨
      (key2 t₁ = key2 t₂ ∧ t₁.day < t₂.day)) with hs | ⟨he, hs⟩
  · exact Or.inl (tsPrefix2_lt h₁ h₂ hs)
  · exact Or.inr ⟨tsPrefix2_eq h₁ h₂ he, pad2_lt hs (by omega)⟩

theorem tsPrefix3_eq {t₁ t₂ : DateTime} (h₁ : t₁.valid) (h₂ : t₂.valid)
    (hk : key3 t₁ = key3 t₂) : tsPrefix3 t₁ = tsPrefix3 t₂ := by
  have hd₁ := h₁
  have hd₂ := h₂
  obtain ⟨-, -, -, -, hdy₁, hdu₁, -⟩ := hd₁
  obtain ⟨-, -, -, -, hdy₂, hdu₂, -⟩ := hd₂
  unfold key3 at hk
  have h2 : key2 t₁ = key2 t₂ := by omega
  have hd : t₁.day = t₂.day := by omega
  unfold tsPrefix3
  rw [tsPrefix2_eq h₁ h₂ h2, hd]

theorem tsPrefix5_lt {t₁ t₂ : DateTime} (h₁ : t₁.valid) (h₂ : t₂.valid)
    (hk : key4 t₁ < key4 t₂) :
    List.Lex (· < ·) (tsPrefix5 t₁) (tsPrefix5 t₂) := by
  have hh₁ := h₁
  have hh₂ := h₂
  obtain ⟨-, -, -, -, -, -, hhu₁, -⟩ := hh₁
  obtain ⟨-, -, -, -, -, -, hhu₂, -⟩ := hh₂
  unfold key4 at hk
  unfold tsPrefix5 tsPrefix4
  rw [List.append_assoc, List.append_assoc]
  refine lex_append_strict (by simp [tsPrefix3, tsPrefix2, year4, pad2]) ?_
  rcases (by omega : key3 t₁ < key3 t₂ ∨
      (key3 t₁ = key3 t₂ ∧ t₁.hours < t₂.hours)) with hs | ⟨he, hs⟩
  · exact Or.inl (tsPrefix3_lt h₁ h₂ hs)
  · refine Or.inr ⟨tsPrefix3_eq h₁ h₂ he, ?_⟩
    exact lex_append_right_of_lex ['_'] (pad2_lt hs (by omega))

theorem tsPrefix5_eq {t₁ t₂ : DateTime} (h₁ : t₁.valid) (h₂ : t₂.valid)
    (hk : key4 t₁ = key4 t₂) : tsPrefix5 t₁ = tsPrefix5 t₂ := by
  have hh₁ := h₁
  have hh₂ := h₂
  obtain ⟨-, -, -, -, -, -, hhu₁, -⟩ := hh₁
  obtain ⟨-, -, -, -, -, -, hhu₂, -⟩ := hh₂
  unfold key4 at hk
  have h3 : key3 t₁ = key3 t₂ := by omega
  have hh : t₁.hours = t₂.hours := by omega
  unfold tsPrefix5 tsPrefix4
  rw [tsPrefix3_eq h₁ h₂ h3, hh]

theorem tsPrefix6_lt {t₁ t₂ : DateTime} (h₁ : t₁.valid) (h₂ : t₂.valid)
    (hk : key5 t₁ < key5 t₂) :
    List.Lex (· < ·) (tsPrefix6 t₁) (tsPrefix6 t₂) := by
  have hm₁ := h₁
  have hm₂ := h₂
  obtain ⟨-, -, -, -, -, -, -, hmu₁, -⟩ := hm₁
  obtain ⟨-, -, -, -, -, -, -, hmu₂, -⟩ := hm₂
  unfold key5 at hk
  unfold tsPrefix6
  refine lex_append_strict
    (by simp [tsPrefix5, tsPrefix4, tsPrefix3, tsPrefix2, year4, pad2]) ?_
  rcases (by omega : key4 t₁ < key4 t₂ ∨
      (key4 t₁ = key4 t₂ ∧ t₁.minutes < t₂.minutes)) with hs | ⟨he, hs⟩
  · exact Or.inl (tsPrefix5_lt h₁ h₂ hs)
  · exact Or.inr ⟨tsPrefix5_eq h₁ h₂ he, pad2_lt hs (by omega)⟩

theorem tsPrefix6_eq {t₁ t₂ : DateTime} (h₁ : t₁.valid) (h₂ : t₂.valid)
    (hk : key5 t₁ = key5 t₂) : tsPrefix6 t₁ = tsPrefix6 t₂ := by
  have hm₁ := h₁
  have hm₂ := h₂
  obtain ⟨-, -, -, -, -, -, -, hmu₁, -⟩ := hm₁
  obtain ⟨-, -, -, -, -, -, -, hmu₂, -⟩ := hm₂
  unfold key5 at hk
  have h4 : key4 t₁ = key4 t₂ := by omega
  have hm : t₁.minutes = t₂.minutes := by omega
  unfold tsPrefix6
  rw [tsPrefix5_eq h₁ h₂ h4, hm]

/-- Claim C9: for any two calendar dates in years 1000–9999,
`generateTimestamp` yields a fixed-width 15-character `YYYYMMDD_HHMMSS`
string (underscore at index 8), and the chronologically earlier date's
string is lexicographically at most the later date's, so the filenames
built from it sort chronologically as plain strings. -/
theorem generateTimestamp_lex_sortable (t₁ t₂ : DateTime)
    (h₁ : t₁.valid) (h₂ : t₂.valid) (hk : t₁.key ≤ t₂.key) :
    (generateTimestamp t₁).data.length = 15 ∧
    (generateTimestamp t₁).data.get? 8 = some '_' ∧
    generateTimestamp t₁ ≤ generateTimestamp t₂ := by
  have hsm₁ := h₁
  have hsm₂ := h₂
  obtain ⟨-, -, -, -, -, -, -, -, hsu₁⟩ := hsm₁
  obtain ⟨-, -, -, -, -, -, -, -, hsu₂⟩ := hsm₂
  refine ⟨by simp [generateTimestamp, year4, pad2], ?_, ?_⟩
  · simp [generateTimestamp, year4, pad2]
  · rw [key_eq_key5, key_eq_key5] at hk
    have hlex : List.Lex (· < ·) (generateTimestamp t₁).data (generateTimestamp t₂).data ∨
        (generateTimestamp t₁).data = (generateTimestamp t₂).data := by
      rw [generateTimestamp_data, generateTimestamp_data]
      rcases (by omega : key5 t₁ < key5 t₂ ∨
          (key5 t₁ = key5 t₂ ∧ t₁.seconds ≤ t₂.seconds)) with hs | ⟨he, hs⟩
      · exact Or.inl (lex_append_strict
          (by simp [tsPrefix6, tsPrefix5, tsPrefix4, tsPrefix3, tsPrefix2, year4, pad2])
          (Or.inl (tsPrefix6_lt h₁ h₂ hs)))
      · rcases Nat.lt_or_ge t₁.seconds t₂.seconds with hss | hss
        · exact Or.inl (lex_append_strict
            (by simp [tsPrefix6, tsPrefix5, tsPrefix4, tsPrefix3, tsPrefix2, year4, pad2])
            (Or.inr ⟨tsPrefix6_eq h₁ h₂ he, pad2_lt hss (by omega)⟩))
        · have hseq : t₁.seconds = t₂.seconds := by omega
          exact Or.inr (by rw [tsPrefix6_eq h₁ h₂ he, hseq])
    rcases hlex with hlex | heq
    · refine le_of_lt ?_
      rw [String.lt_iff_toList_lt]
      exact hlex
    · refine le_of_eq ?_
      cases hg1 : generateTimestamp t₁ with
      | mk d₁ =>
        cases hg2 : generateTimestamp t₂ with
        | mk d₂ =>
          rw [hg1, hg2] at heq
          simp only at heq
          rw [heq]

/-- Witness for C9: two concrete dates one second apart. -/
theorem generateTimestamp_lex_sortable_witness :
    (DateTime.mk 2026 10 11 23 59 59).valid ∧
    (DateTime.mk 2026 10 12 0 0 0).valid ∧
    (DateTime.mk 2026 10 11 23 59 59).key ≤ (DateTime.mk 2026 10 12 0 0 0).key ∧
    ((generateTimestamp ⟨2026, 10, 11, 23, 59, 59⟩).data.length = 15 ∧
     (generateTimestamp ⟨2026, 10, 11, 23, 59, 59⟩).data.get? 8 = some '_' ∧
     generateTimestamp ⟨2026, 10, 11, 23, 59, 59⟩ ≤
       generateTimestamp ⟨2026, 10, 12, 0, 0, 0⟩) :=
  ⟨by decide, by decide, by decide,
   generateTimestamp_lex_sortable ⟨2026, 10, 11, 23, 59, 59⟩ ⟨2026, 10, 12, 0, 0, 0⟩
     (by decide) (by decide) (by decide)⟩

/-! ### The export/import round trip (C4) -/

/-- The raw character content a value contributes to its CSV field: what the
reader recovers after unquoting. -/
def valueChars : Option String → List Char
  | none => []
  | some s => s.data

/-- A separator position: the spot where a field must stop. -/
def isSep (rest : List Char) : Prop :=
  rest = [] ∨ ∃ c r, rest = c :: r ∧ (c = ',' ∨ c = '\n')

theorem scanUnquoted_spec :
    ∀ (s rest acc : List Char), (∀ c ∈ s, ¬(c = ',' ∨ c = '\n')) → isSep rest →
      scanUnquoted (s ++ rest) acc = (acc ++ s, rest) := by
  intro s
  induction s with
  | nil =>
    intro rest acc _ hsep
    rcases hsep with rfl | ⟨c, r, rfl, hc⟩
    · simp [scanUnquoted]
    · rw [List.nil_append, scanUnquoted]
      rcases hc with rfl | rfl <;> simp
  | cons d s ih =>
    intro rest acc hclean hsep
    have hd : ¬(d = ',' ∨ d = '\n') := hclean d (by simp)
    rw [List.cons_append, scanUnquoted]
    have hcond : (d = ',' || d = '\n') = false := by
      simp only [Bool.or_eq_false_iff, decide_eq_false_iff_not]
      exact ⟨fun hc => hd (Or.inl hc), fun hc => hd (Or.inr hc)⟩
    rw [if_neg (by simp [hcond])]
    rw [ih rest (acc ++ [d]) (fun c hc => hclean c (by simp [hc])) hsep]
    simp

theorem scanQuoted_spec :
    ∀ (s rest acc : List Char), isSep rest →
      scanQuoted (doubledQuotes s ++ '"' :: rest) acc = some (acc ++ s, rest) := by
  intro s
  induction s with
  | nil =>
    intro rest acc hsep
    simp only [doubledQuotes, List.flatMap_nil, List.nil_append]
    rcases hsep with rfl | ⟨c, r, rfl, hc⟩
    · rw [scanQuoted_cons_nil, if_pos rfl]
      simp
    · rw [scanQuoted_cons₂, if_pos rfl]
      have hcq : c ≠ '"' := by rcases hc with rfl | rfl <;> decide
      rw [if_neg hcq]
      simp
  | cons d s ih =>
    intro rest acc hsep
    by_cases hd : d = '"'
    · subst hd
      have hdq : doubledQuotes ('"' :: s) = '"' :: '"' :: doubledQuotes s := by
        simp [doubledQuotes]
      rw [hdq, List.cons_append, List.cons_append, scanQuoted_cons₂, if_pos rfl,
        if_pos rfl]
      rw [ih rest (acc ++ ['"']) hsep]
      simp
    · have hdd : doubledQuotes (d :: s) = d :: doubledQuotes s := by
        simp [doubledQuotes, hd]
      rw [hdd, List.cons_append]
      obtain ⟨c2, r2, heq⟩ : ∃ c2 r2, doubledQuotes s ++ '"' :: rest = c2 :: r2 := by
        cases hds : doubledQuotes s with
        | nil => exact ⟨'"', rest, by simp⟩
        | cons x xs => exact ⟨x, xs ++ '"' :: rest, by simp⟩
      rw [heq, scanQuoted_cons₂, if_neg hd, ← heq]
      rw [ih rest (acc ++ [d]) hsep]
      simp

theorem parseField_sep (rest : List Char) (hsep : isSep rest) :
    parseField rest = ([], rest) := by
  rcases hsep with rfl | ⟨c, r, rfl, hc⟩
  · simp [parseField]
  · have hcq : c ≠ '"' := by rcases hc with rfl | rfl <;> decide
    rw [parseField_cons, if_neg hcq, scanUnquoted]
    rcases hc with rfl | rfl <;> simp

theorem parseField_spec (v : Option String) (rest : List Char) (hsep : isSep rest) :
    parseField (renderValue v ++ rest) = (valueChars v, rest) := by
  cases v with
  | none =>
    simp only [renderValue, valueChars, List.nil_append]
    exact parseField_sep rest hsep
  | some s =>
    by_cases hq : needsQuoting s = true
    · have hrv : renderValue (some s) = '"' :: (doubledQuotes s.data ++ ['"']) := by
        simp [renderValue, escapeField, hq]
      rw [hrv, List.cons_append, parseField_cons, if_pos rfl]
      rw [List.append_assoc, List.singleton_append]
      rw [scanQuoted_spec s.data rest [] hsep]
      simp [valueChars]
    · have hclean : ∀ c ∈ s.data, ¬(c = ',' ∨ c = '\n') := by
        intro c hc hcon
        apply hq
        unfold needsQuoting
        rw [List.any_eq_true]
        refine ⟨c, hc, ?_⟩
        rcases hcon with rfl | rfl <;> simp
      have hnq : ∀ c ∈ s.data, c ≠ '"' := by
        intro c hc hcon
        apply hq
        unfold needsQuoting
        rw [List.any_eq_true]
        exact ⟨c, hc, by subst hcon; simp⟩
      have hrv : renderValue (some s) = s.data := by
        simp [renderValue, escapeField, hq]
      rw [hrv]
      cases hs : s.data with
      | nil =>
        rw [List.nil_append]
        simp only [valueChars, hs]
        exact parseField_sep rest hsep
      | cons d ds =>
        have hdq : d ≠ '"' := hnq d (by rw [hs]; simp)
        rw [List.cons_append, parseField_cons, if_neg hdq]
        have hsu := scanUnquoted_spec (d :: ds) rest []
          (by rw [← hs]; exact hclean) hsep
        rw [List.cons_append] at hsu
        rw [hsu]
        simp [valueChars, hs]

theorem renderRecordChars_singleton (v : Option String) :
    renderRecordChars [v] = renderValue v := by
  simp [renderRecordChars, List.intercalate]

theorem renderRecordChars_cons₂ (v w : Option String) (tl : List (Option String)) :
    renderRecordChars (v :: w :: tl) =
      renderValue v ++ ',' :: renderRecordChars (w :: tl) := by
  simp [renderRecordChars, List.intercalate, List.intersperse]

theorem parseRecord_eq_comma {input r : List Char}
    (h : (parseField input).2 = ',' :: r) :
    parseRecord input = ((parseField input).1 :: (parseRecord r).1, (parseRecord r).2) := by
  rw [parseRecord.eq_def]
  split
  next r2 h2 =>
    rw [h] at h2
    injection h2 with h3 h4
    subst h4
    rfl
  next r2 h2 =>
    rw [h] at h2
    injection h2 with h3
    exact absurd h3 (by decide)
  next h1 h2 =>
    exact absurd h (h1 r)

theorem parseRecord_eq_newline {input r : List Char}
    (h : (parseField input).2 = '\n' :: r) :
    parseRecord input = ([(parseField input).1], r) := by
  rw [parseRecord.eq_def]
  split
  next r2 h2 =>
    rw [h] at h2
    injection h2 with h3
    exact absurd h3 (by decide)
  next r2 h2 =>
    rw [h] at h2
    injection h2 with h3 h4
    subst h4
    rfl
  next h1 h2 =>
    exact absurd h (h2 r)

theorem parseRecord_eq_end {input : List Char}
    (h : (parseField input).2 = []) :
    parseRecord input = ([(parseField input).1], []) := by
  rw [parseRecord.eq_def]
  split
  next r2 h2 =>
    rw [h] at h2
    cases h2
  next r2 h2 =>
    rw [h] at h2
    cases h2
  next h1 h2 =>
    rfl

theorem parseRecord_spec :
    ∀ (fs : List (Option String)) (rest : List Char), fs ≠ [] →
      (rest = [] ∨ ∃ r, rest = '\n' :: r) →
      parseRecord (renderRecordChars fs ++ rest) = (fs.map valueChars, rest.tail) := by
  intro fs
  induction fs with
  | nil => intro rest hne _; exact absurd rfl hne
  | cons v tl ih =>
    intro rest hne hrest
    have hsep_rest : isSep rest := by
      rcases hrest with rfl | ⟨r, rfl⟩
      · exact Or.inl rfl
      · exact Or.inr ⟨'\n', r, rfl, Or.inr rfl⟩
    cases tl with
    | nil =>
      rw [renderRecordChars_singleton]
      have hpf := parseField_spec v rest hsep_rest
      rcases hrest with rfl | ⟨r, rfl⟩
      · rw [parseRecord_eq_end (by rw [hpf])]
        rw [hpf]
        simp
      · rw [parseRecord_eq_newline (by rw [hpf])]
        rw [hpf]
        simp
    | cons w tl2 =>
      rw [renderRecordChars_cons₂, List.append_assoc, List.cons_append]
      have hpf := parseField_spec v (',' :: (renderRecordChars (w :: tl2) ++ rest))
        (Or.inr ⟨',', renderRecordChars (w :: tl2) ++ rest, rfl, Or.inl rfl⟩)
      rw [parseRecord_eq_comma (by rw [hpf])]
      rw [ih rest (by simp) hrest]
      rw [hpf]
      simp

theorem parseCSV_nil : parseCSV [] = [] := by
  rw [parseCSV]

theorem parseCSV_cons_eq (c : Char) (rest : List Char) :
    parseCSV (c :: rest) =
      (parseRecord (c :: rest)).1 :: parseCSV (parseRecord (c :: rest)).2 := by
  rw [parseCSV]

theorem renderRecordChars_ne_nil {fs : List (Option String)} (h : 2 ≤ fs.length) :
    renderRecordChars fs ≠ [] := by
  cases fs with
  | nil => simp at h
  | cons v tl =>
    cases tl with
    | nil => simp at h
    | cons w tl2 =>
      rw [renderRecordChars_cons₂]
      intro hc
      obtain ⟨-, h2⟩ := List.append_eq_nil.mp hc
      cases h2

theorem intercalate_cons₂ (sep a b : List Char) (l : List (List Char)) :
    List.intercalate sep (a :: b :: l) = a ++ sep ++ List.intercalate sep (b :: l) := by
  simp [List.intercalate, List.intersperse]

theorem parseCSV_spec :
    ∀ (recs : List (List (Option String))), (∀ rec ∈ recs, 2 ≤ rec.length) →
      parseCSV (List.intercalate ['\n'] (recs.map renderRecordChars)) =
        recs.map (fun rec => rec.map valueChars) := by
  intro recs
  induction recs with
  | nil =>
    intro _
    simp [List.intercalate, parseCSV_nil]
  | cons rec tl ih =>
    intro hlen
    have hrec2 : 2 ≤ rec.length := hlen rec (by simp)
    have hrne : rec ≠ [] := by
      cases rec
      · simp at hrec2
      · simp
    cases tl with
    | nil =>
      simp only [List.map_cons, List.map_nil]
      have hsing : List.intercalate ['\n'] [renderRecordChars rec] =
          renderRecordChars rec := by
        simp [List.intercalate]
      rw [hsing]
      have hne := renderRecordChars_ne_nil hrec2
      obtain ⟨c, cs, hcs⟩ := List.exists_cons_of_ne_nil hne
      have hpr := parseRecord_spec rec [] hrne (Or.inl rfl)
      rw [List.append_nil] at hpr
      rw [hcs, parseCSV_cons_eq, ← hcs, hpr]
      simp [parseCSV_nil]
    | cons rec2 tl2 =>
      simp only [List.map_cons]
      rw [intercalate_cons₂, List.append_assoc, List.singleton_append]
      have hpr := parseRecord_spec rec
        ('\n' :: List.intercalate ['\n'] (renderRecordChars rec2 :: tl2.map renderRecordChars))
        hrne (Or.inr ⟨_, rfl⟩)
      have hne := renderRecordChars_ne_nil hrec2
      obtain ⟨c, cs, hcs⟩ := List.exists_cons_of_ne_nil hne
      obtain ⟨d, ds, hds⟩ : ∃ d ds, renderRecordChars rec ++
          '\n' :: List.intercalate ['\n']
            (renderRecordChars rec2 :: tl2.map renderRecordChars) = d :: ds := by
        rw [hcs]
        exact ⟨c, cs ++ ('\n' :: List.intercalate ['\n']
          (renderRecordChars rec2 :: tl2.map renderRecordChars)), by simp⟩
      rw [hds, parseCSV_cons_eq, ← hds, hpr]
      simp only [List.tail_cons]
      have ih2 := ih (fun r hr => hlen r (by simp [hr]))
      simp only [List.map_cons] at ih2
      rw [ih2]

theorem string_data_mk (l : List Char) : (String.mk l).data = l := rfl

theorem value_roundtrip (v : Option String) :
    (if (⟨valueChars v⟩ : String) = "" then none else some (⟨valueChars v⟩ : String)) =
      collapseValue v := by
  cases v with
  | none => rfl
  | some s =>
    show (if String.mk s.data = "" then none else some (String.mk s.data)) = _
    have hs : String.mk s.data = s := rfl
    rw [hs]
    rfl

theorem parseCSVRow_cons (kv : String × String) (l : List (String × String)) :
    parseCSVRow (kv :: l) =
      (kv.1, if kv.2 = "" then none else some kv.2) :: parseCSVRow l := rfl

theorem collapseRow_cons (kv : String × Option String) (l : Row) :
    collapseRow (kv :: l) = (kv.1, collapseValue kv.2) :: collapseRow l := rfl

theorem row_roundtrip :
    ∀ (row : Row) (cols : List String), row.map Prod.fst = cols →
      parseCSVRow (((cols.map String.data).zip ((row.map Prod.snd).map valueChars)).map
        (fun p => (String.mk p.1, String.mk p.2))) = collapseRow row := by
  intro row
  induction row with
  | nil =>
    intro cols h
    rw [← h]
    rfl
  | cons kv row2 ih =>
    intro cols h
    obtain ⟨k, v⟩ := kv
    rw [← h]
    simp only [List.map_cons, List.zip_cons_cons]
    rw [parseCSVRow_cons, collapseRow_cons]
    refine congrArg₂ List.cons ?_ ?_
    · show (String.mk k.data,
        if String.mk (valueChars v) = "" then none
        else some (String.mk (valueChars v))) = (k, collapseValue v)
      rw [value_roundtrip]
    · exact ih (row2.map Prod.fst) rfl

theorem importRows_export (cols : List String) (rows : List Row)
    (hcols : 2 ≤ cols.length)
    (hrows : ∀ row ∈ rows, row.map Prod.fst = cols) :
    importRows (exportTableToCSV cols rows) = rows.map collapseRow := by
  have hlens : ∀ rec ∈ (cols.map some) :: rows.map (fun r => r.map Prod.snd),
      2 ≤ rec.length := by
    intro rec hrec
    rcases List.mem_cons.mp hrec with rfl | hrec
    · simpa using hcols
    · rw [List.mem_map] at hrec
      obtain ⟨row, hrow, rfl⟩ := hrec
      have := congrArg List.length (hrows row hrow)
      simp only [List.length_map] at this ⊢
      omega
  have hp := parseCSV_spec ((cols.map some) :: rows.map (fun r => r.map Prod.snd)) hlens
  have hobj : csvParseObjects (exportTableToCSV cols rows) =
      (rows.map (fun row => (row.map Prod.snd).map valueChars)).map
        (fun r => (((cols.map some).map valueChars).zip r).map
          (fun p => (String.mk p.1, String.mk p.2))) := by
    show (match parseCSV (List.intercalate ['\n']
        (((cols.map some) :: rows.map (fun r => r.map Prod.snd)).map renderRecordChars)) with
      | [] => []
      | header :: data =>
        data.map (fun r => (header.zip r).map
          (fun (p : List Char × List Char) => (String.mk p.1, String.mk p.2)))) = _
    rw [hp]
    simp [List.map_cons, List.map_map, Function.comp_def]
  unfold importRows
  rw [hobj, List.map_map, List.map_map]
  have hhd : (cols.map some).map valueChars = cols.map String.data := by
    rw [List.map_map]
    rfl
  refine List.map_congr_left ?_
  intro row hrow
  simp only [Function.comp_apply]
  rw [hhd]
  exact row_roundtrip row cols (hrows row hrow)

/-- The restore environment produced by exporting `store₀` and uploading the
archive: the extraction directory holds `<name>.csv` for every registry
entity (Modelled from the spec: `exportAll` names each file
`<entityName>.<ext>` and the archive/unarchive pair §4.4 preserves the
staged files); the store accepts the deletes and the valid parsed rows. -/
def exportEnv (tables : List String) (cols : String → List String) (store₀ : Store)
    (xdir : String) (isDev : Bool) : RestoreEnv where
  dir := ⟨tables.map (fun t => t ++ ".csv"), []⟩
  read := fun p => (tables.find? (fun t => pathJoin xdir (t ++ ".csv") = p)).map
    (fun t => exportTableToCSV (cols t) (store₀ t))
  clearOk := fun _ => true
  insertOk := fun _ _ => true
  isDevelopment := isDev

theorem string_data_inj {a b : String} (h : a.data = b.data) : a = b := by
  cases a
  cases b
  exact congrArg String.mk h

theorem jsEndsWith_append (t suf : String) : jsEndsWith (t ++ suf) suf = true := by
  unfold jsEndsWith
  rw [String.data_append, List.reverse_append]
  exact List.isPrefixOf_iff_prefix.mpr (List.prefix_append _ _)

theorem pathJoin_csv_inj {xdir a b : String}
    (h : pathJoin xdir (a ++ ".csv") = pathJoin xdir (b ++ ".csv")) : a = b := by
  have hd := congrArg String.data h
  unfold pathJoin at hd
  simp only [String.data_append] at hd
  have h2 := List.append_cancel_left hd
  exact string_data_inj (List.append_cancel_right h2)

theorem find?_export {tables : List String} {t : String} (xdir : String)
    (ht : t ∈ tables) :
    tables.find? (fun u => pathJoin xdir (u ++ ".csv") = pathJoin xdir (t ++ ".csv")) =
      some t := by
  induction tables with
  | nil => cases ht
  | cons u us ih =>
    by_cases hu : u = t
    · subst hu
      rw [List.find?_cons_of_pos _ (by simp)]
    · rw [List.find?_cons_of_neg _ (by simp; intro hc; exact hu (pathJoin_csv_inj hc))]
      exact ih (by rcases List.mem_cons.mp ht with rfl | h2; exact absurd rfl hu; exact h2)

theorem exportEnv_read {tables : List String} {t : String}
    (cols : String → List String) (store₀ : Store) (xdir : String) (isDev : Bool)
    (ht : t ∈ tables) :
    (exportEnv tables cols store₀ xdir isDev).read (pathJoin xdir (t ++ ".csv")) =
      some (exportTableToCSV (cols t) (store₀ t)) := by
  show (tables.find? (fun u => pathJoin xdir (u ++ ".csv") =
      pathJoin xdir (t ++ ".csv"))).map
      (fun u => exportTableToCSV (cols u) (store₀ u)) = _
  rw [find?_export xdir ht]
  rfl

theorem clearLoop_all_true (ts : List String) (store : Store) :
    ∃ cleared, clearLoop (fun _ => true) ts store = (.ok cleared, ts.map REvent.clear) ∧
      (∀ u ∈ ts, cleared u = []) ∧ (∀ u, u ∉ ts → cleared u = store u) := by
  induction ts generalizing store with
  | nil => exact ⟨store, rfl, by simp, fun u _ => rfl⟩
  | cons t rest ih =>
    obtain ⟨cleared, heq, hin, hout⟩ := ih (updateStore store t [])
    refine ⟨cleared, ?_, ?_, ?_⟩
    · rw [clearLoop, if_pos rfl, heq]
      rfl
    · intro u hu
      rcases List.mem_cons.mp hu with rfl | hu
      · by_cases hur : u ∈ rest
        · exact hin u hur
        · rw [hout u hur]
          simp [updateStore]
      · exact hin u hu
    · intro u hu
      have hur : u ∉ rest := fun hc => hu (List.mem_cons_of_mem t hc)
      have hut : u ≠ t := fun hc => hu (hc ▸ List.mem_cons_self t rest)
      rw [hout u hur]
      simp [updateStore, hut]

theorem loadLoop_exportEnv (tables : List String) (cols : String → List String)
    (store₀ : Store) (xdir : String) (isDev : Bool) :
    ∀ (ts : List String), (∀ t ∈ ts, t ∈ tables) → ts.Nodup →
      (∀ t ∈ ts, 2 ≤ (cols t).length) →
      (∀ t ∈ ts, ∀ row ∈ store₀ t, row.map Prod.fst = cols t) →
      ∀ (pending : Store), (∀ t ∈ ts, pending t = []) →
      ∃ f rows total evs,
        loadLoop (exportEnv tables cols store₀ xdir isDev) xdir ts pending =
          (.ok (f, rows, total), evs) ∧
        (∀ t ∈ ts, f t = (store₀ t).map collapseRow) ∧
        (∀ u, u ∉ ts → f u = pending u) := by
  intro ts
  induction ts with
  | nil =>
    intro _ _ _ _ pending _
    exact ⟨pending, [], 0, [], rfl, by simp, fun u _ => rfl⟩
  | cons t rest ih =>
    intro hsub hnd hcols hrows pending hpend
    have ht : t ∈ tables := hsub t (by simp)
    have hread := exportEnv_read cols store₀ xdir isDev ht
    have himpr : importRows (exportTableToCSV (cols t) (store₀ t)) =
        (store₀ t).map collapseRow :=
      importRows_export (cols t) (store₀ t) (hcols t (by simp))
        (hrows t (by simp))
    have hnd2 : rest.Nodup := hnd.of_cons
    have htr : t ∉ rest := by
      have := List.nodup_cons.mp hnd
      exact this.1
    by_cases hst : (store₀ t).map collapseRow = []
    · have himp : importCSVToTable (exportEnv tables cols store₀ xdir isDev).insertOk t
          (exportTableToCSV (cols t) (store₀ t)) pending = .ok (pending, 0, []) := by
        simp only [importCSVToTable, himpr, hst]
        rfl
      obtain ⟨f, rows, total, evs, heq, hin, hout⟩ := ih
        (fun u hu => hsub u (by simp [hu])) hnd2
        (fun u hu => hcols u (by simp [hu]))
        (fun u hu => hrows u (by simp [hu]))
        pending (fun u hu => hpend u (by simp [hu]))
      refine ⟨f, (t, 0) :: rows, total + 0, [] ++ evs, ?_, ?_, ?_⟩
      · simp only [loadLoop, hread, himp, heq]
      · intro u hu
        rcases List.mem_cons.mp hu with rfl | hu
        · rw [hout u htr, hpend u (by simp), hst]
        · exact hin u hu
      · intro u hu
        exact hout u (fun hc => hu (List.mem_cons_of_mem t hc))
    · have hlen : ((store₀ t).map collapseRow).length ≠ 0 := by
        intro hc
        exact hst (List.length_eq_zero.mp hc)
      have himp : importCSVToTable (exportEnv tables cols store₀ xdir isDev).insertOk t
          (exportTableToCSV (cols t) (store₀ t)) pending =
          .ok (updateStore pending t (pending t ++ (store₀ t).map collapseRow),
            ((store₀ t).map collapseRow).length, [.insert t]) := by
        simp only [importCSVToTable, himpr]
        rw [if_neg hlen]
        rfl
      have hpend2 : ∀ u ∈ rest,
          updateStore pending t (pending t ++ (store₀ t).map collapseRow) u = [] := by
        intro u hu
        have hut : u ≠ t := fun hc => htr (hc ▸ hu)
        rw [updateStore, if_neg hut]
        exact hpend u (by simp [hu])
      obtain ⟨f, rows, total, evs, heq, hin, hout⟩ := ih
        (fun u hu => hsub u (by simp [hu])) hnd2
        (fun u hu => hcols u (by simp [hu]))
        (fun u hu => hrows u (by simp [hu]))
        (updateStore pending t (pending t ++ (store₀ t).map collapseRow)) hpend2
      refine ⟨f, (t, ((store₀ t).map collapseRow).length) :: rows,
        total + ((store₀ t).map collapseRow).length, [.insert t] ++ evs, ?_, ?_, ?_⟩
      · simp only [loadLoop, hread, himp, heq]
      · intro u hu
        rcases List.mem_cons.mp hu with rfl | hu
        · rw [hout u htr, updateStore, if_pos rfl, hpend u (by simp)]
          simp
        · exact hin u hu
      · intro u hu
        have hut : u ≠ t := fun hc => hu (hc ▸ List.mem_cons_self t rest)
        rw [hout u (fun hc => hu (List.mem_cons_of_mem t hc)), updateStore, if_neg hut]

/-- Claim C4: for every valid entity set, exporting all entities and
restoring from the produced archive succeeds and reproduces every entity's
original row content in the target store, except that every field that was
originally an empty string is restored as NULL (the documented collapse,
`collapseRow`). -/
theorem export_restore_roundtrip (tables : List String) (cols : String → List String)
    (store₀ store₁ : Store) (xdir : String) (isDev : Bool)
    (hne : tables ≠ []) (hnd : tables.Nodup)
    (hcols : ∀ t ∈ tables, 2 ≤ (cols t).length)
    (hrows : ∀ t ∈ tables, ∀ row ∈ store₀ t, row.map Prod.fst = cols t) :
    ∃ resp,
      (replenishDatabase tables (exportEnv tables cols store₀ xdir isDev) xdir store₁).1 =
        .ok resp ∧
      ∀ t ∈ tables,
        (replenishDatabase tables (exportEnv tables cols store₀ xdir isDev) xdir
            store₁).2.1 t =
          (store₀ t).map collapseRow := by
  have hfe : (tables.map (fun t => t ++ ".csv")).filter (fun n => jsEndsWith n ".csv") =
      tables.map (fun t => t ++ ".csv") := by
    rw [List.filter_eq_self]
    intro n hn
    rw [List.mem_map] at hn
    obtain ⟨t, -, rfl⟩ := hn
    exact jsEndsWith_append t ".csv"
  have hcsv : hasCsv (tables.map (fun t => t ++ ".csv")) = true := by
    unfold hasCsv
    rw [hfe]
    cases tables with
    | nil => exact absurd rfl hne
    | cons a l => simp
  have hfind : findCsvRoot xdir (exportEnv tables cols store₀ xdir isDev).dir =
      some xdir := by
    unfold findCsvRoot
    have hfs : (exportEnv tables cols store₀ xdir isDev).dir.files =
        tables.map (fun t => t ++ ".csv") := rfl
    rw [hfs, hcsv]
    simp
  have hlist : dirListing xdir (exportEnv tables cols store₀ xdir isDev).dir xdir =
      tables.map (fun t => t ++ ".csv") := by
    unfold dirListing
    rw [if_pos rfl]
    rfl
  have hemp : ((dirListing xdir (exportEnv tables cols store₀ xdir isDev).dir
      xdir).filter (fun n => jsEndsWith n ".csv")).isEmpty = false := by
    rw [hlist, hfe]
    cases tables with
    | nil => exact absurd rfl hne
    | cons a l => simp
  obtain ⟨cleared, hceq, hcin, hcout⟩ := clearLoop_all_true tables.reverse store₁
  obtain ⟨f, rows, total, evs, hleq, hin, hout⟩ :=
    loadLoop_exportEnv tables cols store₀ xdir isDev tables (fun t ht => ht) hnd
      hcols hrows cleared (fun t ht => hcin t (List.mem_reverse.mpr ht))
  have hclear : clearLoop (exportEnv tables cols store₀ xdir isDev).clearOk
      tables.reverse store₁ =
      (.ok cleared, tables.reverse.map REvent.clear) := hceq
  have hb : replenishBody tables (exportEnv tables cols store₀ xdir isDev) xdir store₁ =
      ⟨.ok (⟨rows.length, rows, total⟩, f), false,
       .txBegin :: (tables.reverse.map REvent.clear ++ evs) ++ [.commit]⟩ := by
    simp only [replenishBody, hfind, hemp, Bool.false_eq_true, if_false, hclear, hleq]
  have hr : replenishDatabase tables (exportEnv tables cols store₀ xdir isDev)
      xdir store₁ =
      (.ok ⟨rows.length, rows, total⟩, f,
       (.txBegin :: (tables.reverse.map REvent.clear ++ evs) ++ [.commit]) ++
         cleanupEvents (exportEnv tables cols store₀ xdir isDev)) := by
    simp only [replenishDatabase, hb]
  refine ⟨⟨rows.length, rows, total⟩, by rw [hr], ?_⟩
  intro t ht
  rw [hr]
  exact hin t ht

/-- Witness for C4: a one-table store whose single row holds a value and an
empty string; the restored row keeps the value and collapses the empty
string to NULL. -/
theorem export_restore_roundtrip_witness :
    ((["Users"] : List String) ≠ [] ∧ (["Users"] : List String).Nodup ∧
     (∀ t ∈ (["Users"] : List String), 2 ≤ ((fun _ => ["id", "name"]) t).length) ∧
     (∀ t ∈ (["Users"] : List String),
       ∀ row ∈ (fun u => if u = "Users"
           then [[("id", some "1"), ("name", some "")]] else []) t,
         row.map Prod.fst = (fun (_ : String) => ["id", "name"]) t)) ∧
    (∃ resp,
      (replenishDatabase ["Users"]
        (exportEnv ["Users"] (fun _ => ["id", "name"])
          (fun u => if u = "Users" then [[("id", some "1"), ("name", some "")]] else [])
          "/x" false)
        "/x" (fun _ => [])).1 = .ok resp ∧
      ∀ t ∈ (["Users"] : List String),
        (replenishDatabase ["Users"]
          (exportEnv ["Users"] (fun _ => ["id", "name"])
            (fun u => if u = "Users" then [[("id", some "1"), ("name", some "")]] else [])
            "/x" false)
          "/x" (fun _ => [])).2.1 t =
          (((fun u => if u = "Users"
              then [[("id", some "1"), ("name", some "")]] else []) t).map
            collapseRow)) :=
  ⟨⟨by decide, by decide, by decide, by decide⟩,
   export_restore_roundtrip ["Users"] (fun _ => ["id", "name"])
     (fun u => if u = "Users" then [[("id", some "1"), ("name", some "")]] else [])
     (fun _ => []) "/x" false (by decide) (by decide) (by decide) (by decide)⟩

end Mantrify
